import Mathlib

/-!
# Verification of the BetterAIAgent plan-execution engine

This file gives a shallow embedding of the core of the repository:

* `src/src/background/retryUtils.ts` — the retry coordinator (`withRetry`),
  the LLM-assisted failure-recovery protocol (`troubleshootWithLLM`,
  candidate existence filtering, `checkSelectorExistence`);
* `src/src/background/planExecutor.ts` — the plan-execution engine
  (`executePlanSteps`, the fallback-candidate loop, result messaging);
* `src/src/background/injectable/pageUtils.ts` and the injected helpers in
  `src/src/background/main.ts` — the element resolver
  (`findElementByHeuristicsSource`, `findElementBySelectorSource`,
  `isElementVisibleAndInteractiveSource`) and the injected action executor
  (`actionCoreLogic`);
* `src/unnamed/part_002` (`src/utils/llm.ts`) — the defensive parsing of the
  suggestion-service response (`getTroubleshootingSuggestion`).

Side-effecting browser calls (script injection, tab updates, message posts)
are modelled by explicit oracles and by trace fields of an engine state:
the outcome of each `executeSingleAction` call is given by an environment
`env : Nat → Except String Nat` indexed by a global invocation counter
(`Except.ok t` = the action succeeded, returning active tab `t`;
`Except.error m` = the action threw an error with message `m`), and each
`chrome.runtime.sendMessage` call is recorded in a message list.
-/

namespace BetterAIAgent

/-- A plan step.  Steps are duck-typed objects in the source
(`src/src/common/types.ts`, field access via optional chaining); we model
the fields the engine and the executors read.  `none` models an absent
field. -/
structure PlanStep where
  -- `attr` models the source's `attribute` field (`attribute` is reserved in Lean).
  action : String
  optional : Option Bool := none
  target : Option String := none
  selector : Option String := none
  url : Option String := none
  text : Option String := none
  duration : Option Nat := none
  timeout : Option Nat := none
  retryCount : Option Nat := none
  retryDelayMs : Option Nat := none
  attr : Option String := none
  submit : Option Bool := none
deriving DecidableEq, Repr

/-- `FormattedStep` (planExecutor.ts): a `PlanStep` plus its 0-based plan
index.  (The source extends the step object in place and also attaches a
human-readable `description`; the description is presentation-only and is
read by no executor or engine branch, so it is omitted here.) -/
structure FormattedStep where
  s : PlanStep
  id : Nat
deriving DecidableEq, Repr

/-- An execution plan (`ExecutionPlan` in `src/utils/llm.ts`). -/
structure ExecutionPlan where
  goal : String
  steps : List PlanStep
deriving DecidableEq, Repr

/-- JS object spread on an optional field: `{...orig, ...cand}` keeps the
candidate's value for every key the candidate carries and the original's
value otherwise. -/
def overrideField (orig cand : Option α) : Option α :=
  match cand with
  | some v => some v
  | none => orig

/-- `candidateToRun = { ...step, ...candidate }` (planExecutor.ts line 456):
the fallback candidate's present fields override the original step's. -/
def mergeStep (orig cand : PlanStep) : PlanStep where
  action := cand.action
  optional := overrideField orig.optional cand.optional
  target := overrideField orig.target cand.target
  selector := overrideField orig.selector cand.selector
  url := overrideField orig.url cand.url
  text := overrideField orig.text cand.text
  duration := overrideField orig.duration cand.duration
  timeout := overrideField orig.timeout cand.timeout
  retryCount := overrideField orig.retryCount cand.retryCount
  retryDelayMs := overrideField orig.retryDelayMs cand.retryDelayMs
  attr := overrideField orig.attr cand.attr
  submit := overrideField orig.submit cand.submit

/-- `FallbackOutcome` — the `fallback` field of a `StepResult`
(`src/src/common/types.ts`): which candidate was attempted last, whether it
succeeded, and its own error if it failed. -/
structure FallbackOutcome where
  step : PlanStep
  success : Bool
  error : Option String := none
deriving DecidableEq, Repr

/-- `StepResult` (`src/src/common/types.ts`). -/
structure StepResult where
  success : Bool
  error : Option String := none
  fallback : Option FallbackOutcome := none
deriving DecidableEq, Repr

/-! ## Retry coordinator (`withRetry`, retryUtils.ts lines 22-63) -/

/-- Result of `withRetry`: the action's value, a `FallbackError` carrying
the recovery candidates and the original error, or the propagated last
error. -/
inductive RetryResult (α : Type) where
  | ok (v : α)
  | fallbackErr (candidates : List PlanStep) (originalError : String)
  | err (msg : String)
deriving DecidableEq, Repr

/-- Observable outcome of one `withRetry` call: how many times the action
was invoked, the back-off waits inserted between consecutive attempts (in
order; the wait recorded after attempt `i` is `delayMs * i`), whether the
`onFail` recovery callback was invoked, and the result. -/
structure RetryOutcome (α : Type) where
  invokes : Nat
  waits : List Nat
  onFailInvoked : Bool
  result : RetryResult α
deriving DecidableEq, Repr

/-- The attempt loop of `withRetry` (`for i = 1..attempts`), run over the
list of remaining attempt indices.  Returns (number of invocations made,
waits inserted, final result).  The action is a function of the 1-based
attempt index, modelling the behaviour of the action closure over its
successive calls.  A failed attempt `i` with `i < attempts` is followed by
a wait of `delayMs * i` (linear back-off); no wait follows the final
attempt. -/
def attemptsFrom (action : Nat → Except String α) (delayMs attempts : Nat) :
    List Nat → String → Nat × List Nat × Except String α
  | [], lastError => (0, [], Except.error lastError)
  | i :: rest, _lastError =>
    match action i with
    | Except.ok v => (1, [], Except.ok v)
    | Except.error e =>
      let ws := if i < attempts then [delayMs * i] else []
      let r := attemptsFrom action delayMs attempts rest e
      (r.1 + 1, ws ++ r.2.1, r.2.2)

/-- `withRetry` (retryUtils.ts): up to `attempts` attempts with linear
back-off; on success the value is returned immediately.  On exhaustion: if
the step is optional the last error is thrown directly and `onFail` is
never invoked; otherwise `onFail` is invoked and a `FallbackError` is
thrown when it returns a non-empty candidate list, else the last error is
rethrown.  (`"undefined"` stands for the JS `undefined` that would be
thrown if the loop made no attempt at all.) -/
def withRetry (action : Nat → Except String α) (attempts delayMs : Nat)
    (isOptional : Bool) (onFail : String → List PlanStep) : RetryOutcome α :=
  let r := attemptsFrom action delayMs attempts (List.range' 1 attempts) "undefined"
  match r.2.2 with
  | Except.ok v => ⟨r.1, r.2.1, false, RetryResult.ok v⟩
  | Except.error lastErr =>
    if isOptional then ⟨r.1, r.2.1, false, RetryResult.err lastErr⟩
    else
      let cands := onFail lastErr
      if cands.length > 0 then ⟨r.1, r.2.1, true, RetryResult.fallbackErr cands lastErr⟩
      else ⟨r.1, r.2.1, true, RetryResult.err lastErr⟩

/-! ## Plan-execution engine (`executePlanSteps`, planExecutor.ts) -/

/-- `MAX_STEP_RETRIES` (planExecutor.ts line 12). -/
def MAX_STEP_RETRIES : Nat := 3

/-- `RETRY_DELAY_MS` (planExecutor.ts line 13). -/
def RETRY_DELAY_MS : Nat := 1000

/-- `step.retryCount ?? MAX_STEP_RETRIES` (planExecutor.ts line 411). -/
def stepAttempts (fs : FormattedStep) : Nat := fs.s.retryCount.getD MAX_STEP_RETRIES

/-- `step.retryDelayMs ?? RETRY_DELAY_MS` (planExecutor.ts line 412). -/
def stepDelayMs (fs : FormattedStep) : Nat := fs.s.retryDelayMs.getD RETRY_DELAY_MS

/-- Messages posted with `chrome.runtime.sendMessage` during plan
execution.  Per-step result messages (`planStepResult`) carry the
`isFinal` flag of the source: the engine sends every per-step message
(interim and final alike) with `isFinal: false` and only the single
overall plan-completion message with `isFinal: true`.  The overall message
is sent with `stepId = formattedPlan.length - 1`, an `Int` because that is
`-1` for an empty plan. -/
inductive Msg where
  | planReceived (formattedPlan : List FormattedStep)
  | stepResult (isFinal : Bool) (stepId : Int) (result : StepResult)
deriving DecidableEq, Repr

/-- Whether a message is the overall plan-completion event (the only
message sent with `isFinal: true`). -/
def isOverallMsg : Msg → Bool
  | Msg.stepResult true _ _ => true
  | _ => false

/-- Engine state threaded through `executePlanSteps`.  `counter` is the
global `executeSingleAction` invocation counter indexing the environment
oracle; `execLog` records, in order, the step object passed to each
`executeSingleAction` call; `recoverLog` records the ids of the steps for
which the failure-recovery callback (`troubleshootWithLLM`) was invoked;
`finals` records, per executed step in order, the final `StepResult`
payload sent for it (the payload of the second, post-fallback
`planStepResult` message, or of the only one on success). -/
structure EngineState where
  counter : Nat
  activeTabId : Nat
  msgs : List Msg
  execLog : List PlanStep
  recoverLog : List Nat
  finals : List (FormattedStep × StepResult)
  overallSuccess : Bool
  finalErrorMessage : Option String
deriving DecidableEq, Repr

/-- Result of the fallback-candidate loop (planExecutor.ts lines 452-474):
final counter and active tab, the merged steps executed (in order), whether
some candidate succeeded, and the last recorded `FallbackOutcome`. -/
structure FallbackLoopResult where
  counter : Nat
  tab : Nat
  execLog : List PlanStep
  succeeded : Bool
  lastResult : Option FallbackOutcome
deriving DecidableEq, Repr

/-- The fallback-candidate loop: candidates are tried in rank order; each
candidate is executed as `{ ...step, ...candidate }`; the first success
stops the loop (recording `{step: candidate, success: true}`); a failure
records `{step: candidate, success: false, error}` and continues.
`lastResult` keeps the outcome of the last candidate attempted. -/
def tryFallbacks (env : Nat → Except String Nat) (counter tab : Nat) (orig : PlanStep) :
    List PlanStep → FallbackLoopResult
  | [] => ⟨counter, tab, [], false, none⟩
  | cand :: rest =>
    let merged := mergeStep orig cand
    match env counter with
    | Except.ok newTab => ⟨counter + 1, newTab, [merged], true, some ⟨cand, true, none⟩⟩
    | Except.error e =>
      let r := tryFallbacks env (counter + 1) tab orig rest
      ⟨r.counter, r.tab, merged :: r.execLog, r.succeeded,
        some (r.lastResult.getD ⟨cand, false, some e⟩)⟩

/-- One iteration of the step loop of `executePlanSteps` (planExecutor.ts
lines 409-521): run the step through `withRetry`; on success record a
successful final result; on a `FallbackError` send the interim failure
message, try the candidates, and record the combined final result
(original error kept, `finalErrorMessage` defaulting per the JS
`||` when the message is the empty string); on a hard failure send the
interim failure message and record the failure as final.  Returns the new
state and the step's final `StepResult` payload. -/
def runStep (env : Nat → Except String Nat)
    (recover : FormattedStep → String → List PlanStep)
    (st : EngineState) (fs : FormattedStep) : EngineState × StepResult :=
  let ro := withRetry (fun i => env (st.counter + (i - 1))) (stepAttempts fs) (stepDelayMs fs)
              (fs.s.optional.getD false) (recover fs)
  let st1 : EngineState :=
    { st with
      counter := st.counter + ro.invokes
      execLog := st.execLog ++ List.replicate ro.invokes fs.s
      recoverLog := st.recoverLog ++ (if ro.onFailInvoked then [fs.id] else []) }
  match ro.result with
  | RetryResult.ok newTab =>
    let payload : StepResult := { success := true }
    ({ st1 with
        activeTabId := newTab
        msgs := st1.msgs ++ [Msg.stepResult false (fs.id : Int) payload]
        finals := st1.finals ++ [(fs, payload)] }, payload)
  | RetryResult.fallbackErr cands lastErr =>
    let interim : StepResult := { success := false, error := some lastErr }
    let st2 := { st1 with msgs := st1.msgs ++ [Msg.stepResult false (fs.id : Int) interim] }
    let fb := tryFallbacks env st2.counter st2.activeTabId fs.s cands
    let payload : StepResult :=
      { success := fb.succeeded
        error := if fb.succeeded then none else some lastErr
        fallback := fb.lastResult }
    let st3 : EngineState :=
      { st2 with
        counter := fb.counter
        activeTabId := fb.tab
        execLog := st2.execLog ++ fb.execLog
        overallSuccess := if fb.succeeded then st2.overallSuccess else false
        finalErrorMessage := if fb.succeeded then st2.finalErrorMessage
          else some (if lastErr = "" then "Step failed after all fallbacks" else lastErr) }
    ({ st3 with
        msgs := st3.msgs ++ [Msg.stepResult false (fs.id : Int) payload]
        finals := st3.finals ++ [(fs, payload)] }, payload)
  | RetryResult.err lastErr =>
    let payload : StepResult := { success := false, error := some lastErr }
    ({ st1 with
        msgs := st1.msgs ++ [Msg.stepResult false (fs.id : Int) payload,
                             Msg.stepResult false (fs.id : Int) payload]
        overallSuccess := false
        finalErrorMessage := some lastErr
        finals := st1.finals ++ [(fs, payload)] }, payload)

/-- The step loop (planExecutor.ts lines 409-522): steps run sequentially;
after a step's final outcome, a failed non-optional step breaks the loop,
a failed optional step and a successful step continue. -/
def runSteps (env : Nat → Except String Nat)
    (recover : FormattedStep → String → List PlanStep) :
    List FormattedStep → EngineState → EngineState
  | [], st => st
  | fs :: rest, st =>
    let r := runStep env recover st fs
    if !r.2.success && !(fs.s.optional.getD false) then r.1
    else runSteps env recover rest r.1

/-- Formatting of the plan (planExecutor.ts lines 389-393): each step gets
its 0-based index as id. -/
def formatPlan (steps : List PlanStep) : List FormattedStep :=
  steps.enum.map (fun p => ⟨p.2, p.1⟩)

/-- Initial engine state: counters at zero, the `planReceived` message
already posted, `overallSuccess` initialised to `true`. -/
def initialState (tab : Nat) (formatted : List FormattedStep) : EngineState :=
  { counter := 0
    activeTabId := tab
    msgs := [Msg.planReceived formatted]
    execLog := []
    recoverLog := []
    finals := []
    overallSuccess := true
    finalErrorMessage := none }

/-- `executePlanSteps` (planExecutor.ts lines 384-537): format the plan,
publish it, run the step loop, then send the single overall
plan-completion message (`isFinal: true`, associated with the last step
id). -/
def executePlanSteps (env : Nat → Except String Nat)
    (recover : FormattedStep → String → List PlanStep)
    (currentTabId : Nat) (plan : ExecutionPlan) : EngineState :=
  let formatted := formatPlan plan.steps
  let st := runSteps env recover formatted (initialState currentTabId formatted)
  { st with msgs := st.msgs ++
      [Msg.stepResult true ((formatted.length : Int) - 1)
        { success := st.overallSuccess, error := st.finalErrorMessage }] }

/-! ## DOM model and element resolver
(`src/src/background/injectable/pageUtils.ts`; the same helpers are inlined
in `actionCoreLogic` in `src/src/background/main.ts`)

A DOM is modelled as a forest of element nodes.  Each element carries the
properties the resolver reads, a list of (light-DOM) children and an
attached shadow forest (an element without a shadow root has an empty
shadow forest; recursing into an empty shadow root and skipping it are
observationally equal, since every search of an empty root fails).
CSS-selector matching against a single element is abstracted by an oracle
`M : String → ElemProps → Bool`; `querySelectorAll(sel)` on a root is then
the document-ordered (preorder) list of the root's descendants whose
properties satisfy `M sel`, which does not pierce shadow roots — exactly
the DOM behaviour the source relies on. -/

/-- The element state read by `isElementVisibleAndInteractiveSource` and the
text-containment filter.  `width`/`height` are the rendered
`getBoundingClientRect` sizes (a non-positive size is modelled as `0`). -/
structure ElemProps where
  isHTMLElement : Bool := true
  display : String := ""
  visibility : String := ""
  opacity : String := ""
  disabled : Bool := false
  readOnly : Bool := false
  hasOffsetParent : Bool := true
  position : String := ""
  width : Nat := 1
  height : Nat := 1
  textContent : String := ""
deriving DecidableEq, Repr

mutual
/-- A DOM element: properties, light-DOM children, attached shadow forest. -/
inductive DomNode where
  | mk (props : ElemProps) (children : DomForest) (shadow : DomForest)

/-- A forest of sibling DOM elements in document order. -/
inductive DomForest where
  | nil
  | cons (head : DomNode) (tail : DomForest)
end

/-- Properties of an element. -/
def DomNode.props : DomNode → ElemProps
  | .mk p _ _ => p

/-- Light-DOM children of an element. -/
def DomNode.children : DomNode → DomForest
  | .mk _ c _ => c

/-- Shadow forest of an element (empty = no shadow root). -/
def DomNode.shadow : DomNode → DomForest
  | .mk _ _ s => s

mutual
/-- The elements of a subtree in document (preorder) order, not piercing
shadow roots — the matching pool of `rootNode.querySelectorAll`. -/
def subtreeElems : DomNode → List DomNode
  | .mk p c s => .mk p c s :: forestElems c

/-- The elements of a forest in document order (no shadow piercing). -/
def forestElems : DomForest → List DomNode
  | .nil => []
  | .cons t ts => subtreeElems t ++ forestElems ts
end

mutual
/-- All elements of a subtree including every attached shadow subtree, at
any depth. -/
def deepSubtree : DomNode → List DomNode
  | .mk p c s => .mk p c s :: (deepForest c ++ deepForest s)

/-- All elements of a forest including all shadow subtrees. -/
def deepForest : DomForest → List DomNode
  | .nil => []
  | .cons t ts => deepSubtree t ++ deepForest ts
end

/-- `isElementVisibleAndInteractiveSource` (pageUtils.ts lines 4-28): an
element is visible and interactive iff it is an `HTMLElement`, not
`display:none`, not `visibility:hidden`, not `opacity:0`, not disabled, not
read-only, has an offset parent (or is `position:fixed`) and has a
non-zero rendered size. -/
def isVisibleAndInteractive (n : DomNode) : Bool :=
  let p := n.props
  p.isHTMLElement && !(p.display == "none") && !(p.visibility == "hidden") &&
    !(p.opacity == "0") && !p.disabled && !p.readOnly &&
    (p.hasOffsetParent || p.position == "fixed") && p.width > 0 && p.height > 0

/-- Substring occurrence on character lists (the JS `String.includes`). -/
def charsContain (needle : List Char) : List Char → Bool
  | [] => needle.isPrefixOf []
  | c :: rest => needle.isPrefixOf (c :: rest) || charsContain needle rest

/-- `hay.includes(needle)` on strings. -/
def strContains (hay needle : String) : Bool :=
  charsContain needle.data hay.data

/-- The text-containment filter of `findElementByHeuristicsSource`: with no
`:contains` pattern every element passes; with `checkText = some t` (already
lower-cased) the element passes iff its `textContent` is truthy (non-empty)
and its trimmed, lower-cased text contains `t`
(`element.textContent.trim().toLowerCase().includes(checkText)`). -/
def textMatchOk (checkText : Option String) (n : DomNode) : Bool :=
  match checkText with
  | none => true
  | some t => !(n.props.textContent == "") && strContains n.props.textContent.trim.toLower t

/-- Decomposition of a selector entry of the heuristics table
(pageUtils.ts lines 43-52).  `PC sel = some (a, t)` abstracts a successful
match of the regex `(.*):contains\("(.*?)"\)` on a selector containing
`:contains(`, with structural part `a` (replaced by `*` when empty) and
raw text `t`; `PC sel = none` means the selector is used as is.  The
embedding applies the source's `|| ⋆` default and `toLowerCase()`. -/
def decomposeSelector (PC : String → Option (String × String)) (selector : String) :
    String × Option String :=
  match PC selector with
  | some (a, t) => (if a = "" then "*" else a, some t.toLower)
  | none => (selector, none)

/-- Whether element `n` is yielded by heuristics selector `selector`: it
matches the structural selector, passes the text filter, and is visible
and interactive. -/
def selYields (M : String → ElemProps → Bool) (PC : String → Option (String × String))
    (selector : String) (n : DomNode) : Bool :=
  let d := decomposeSelector PC selector
  M d.1 n.props && textMatchOk d.2 n && isVisibleAndInteractive n

/-- One selector entry of the loop of `findElementByHeuristicsSource`
(lines 40-79): query all matching descendants of the root in document
order and return the first one that passes the text filter and is visible
and interactive (`continue` on no match ≡ `none` here). -/
def trySelector (M : String → ElemProps → Bool) (PC : String → Option (String × String))
    (selector : String) (root : DomForest) : Option DomNode :=
  (forestElems root).find? (selYields M PC selector)

/-- The selector list for a semantic target: `heuristics[targetType] || []`. -/
def selectorsOf (H : String → Option (List String)) (target : String) : List String :=
  (H target).getD []

/-- The selector phase of `findElementByHeuristicsSource`: first selector
of the table entry that yields an element wins. -/
def heurLight (M : String → ElemProps → Bool) (PC : String → Option (String × String))
    (H : String → Option (List String)) (target : String) (root : DomForest) :
    Option DomNode :=
  (selectorsOf H target).findSome? (fun sel => trySelector M PC sel root)

/-- `if (found) return found;` — keep the first present result, else
continue with the second computation. -/
def firstSome (x : Option DomNode) (y : Option DomNode) : Option DomNode :=
  match x with
  | some e => some e
  | none => y

mutual
/-- The shadow-DOM phase of `findElementByHeuristicsSource` (lines 80-93)
over a forest: the source iterates `rootNode.querySelectorAll('*')` in
document order and recurses into each attached shadow root; expressed
structurally, the subtree of the first sibling is scanned before the later
siblings. -/
def heurShadowScanF (M : String → ElemProps → Bool) (PC : String → Option (String × String))
    (H : String → Option (List String)) (target : String) : DomForest → Option DomNode
  | .nil => none
  | .cons t ts =>
    firstSome (heurShadowScanT M PC H target t) (heurShadowScanF M PC H target ts)

/-- Shadow scan of one subtree: first the element's own shadow root is
searched with the full resolver (selector phase, then its own shadow
phase — the inner expression is exactly the body of
`findElementByHeuristicsSrc` on the shadow forest), then the shadows of
its descendants in document order. -/
def heurShadowScanT (M : String → ElemProps → Bool) (PC : String → Option (String × String))
    (H : String → Option (List String)) (target : String) : DomNode → Option DomNode
  | .mk _ c s =>
    firstSome
      (if (selectorsOf H target).isEmpty then none
       else firstSome (heurLight M PC H target s) (heurShadowScanF M PC H target s))
      (heurShadowScanF M PC H target c)
end

/-- `findElementByHeuristicsSource` (pageUtils.ts lines 31-94): look the
target up in the heuristics table (returning `null` immediately when no
selectors are defined), try each selector in order over the root, and
otherwise search every attached shadow root recursively, depth-first in
document order.  Returns `none` (not an error) when everything is
exhausted. -/
def findElementByHeuristicsSrc (M : String → ElemProps → Bool)
    (PC : String → Option (String × String)) (H : String → Option (List String))
    (target : String) (root : DomForest) : Option DomNode :=
  if (selectorsOf H target).isEmpty then none
  else firstSome (heurLight M PC H target root) (heurShadowScanF M PC H target root)

/-- The direct-selector phase of `findElementBySelectorSource` (pageUtils.ts
lines 97-111): all matching descendants in document order, first visible
and interactive one wins. -/
def selLight (M : String → ElemProps → Bool) (sel : String) (root : DomForest) :
    Option DomNode :=
  ((forestElems root).filter (fun n => M sel n.props)).find? isVisibleAndInteractive

mutual
/-- Shadow phase of `findElementBySelectorSource` over a forest (document
order, as for the heuristics resolver). -/
def selShadowScanF (M : String → ElemProps → Bool) (sel : String) :
    DomForest → Option DomNode
  | .nil => none
  | .cons t ts =>
    firstSome (selShadowScanT M sel t) (selShadowScanF M sel ts)

/-- Shadow scan of one subtree for the direct-selector resolver: first the
element's own shadow root is searched with the full resolver (the inner
expression is the body of `findElementBySelectorSrc` on the shadow
forest), then the shadows of its descendants in document order. -/
def selShadowScanT (M : String → ElemProps → Bool) (sel : String) :
    DomNode → Option DomNode
  | .mk _ c s =>
    firstSome (firstSome (selLight M sel s) (selShadowScanF M sel s))
      (selShadowScanF M sel c)
end

/-- `findElementBySelectorSource`: first visible-and-interactive match of
the selector in the root, else recursive search of every attached shadow
root; `none` when nothing matches anywhere. -/
def findElementBySelectorSrc (M : String → ElemProps → Bool) (sel : String)
    (root : DomForest) : Option DomNode :=
  firstSome (selLight M sel root) (selShadowScanF M sel root)

/-! ## Injected action executor (`actionCoreLogic`, main.ts lines 321-492) -/

/-- Per-frame result of an injected action (`{success, error?}`). -/
structure ActionResult where
  success : Bool
  error : Option String := none
deriving DecidableEq, Repr

/-- `actionCoreLogic` for `type`/`click` in one frame: resolve the element
(by heuristics for a semantic target, by raw selector otherwise), report
`Element not found in this frame` if resolution fails, re-check visibility
(the branch the resolver is claimed to make unreachable), require a string
`text` for `type`, and otherwise perform the DOM action.  The in-page side
effects (focus, value assignment, event dispatch, click) are pure in this
model, so the `catch` branch that would forward an exception thrown by
them does not arise. -/
def actionCoreLogic (M : String → ElemProps → Bool)
    (PC : String → Option (String × String)) (H : String → Option (List String))
    (actionType identifier : String) (isSemantic : Bool) (text : Option String)
    (root : DomForest) : ActionResult :=
  let element :=
    if isSemantic then findElementByHeuristicsSrc M PC H identifier root
    else findElementBySelectorSrc M identifier root
  match element with
  | none => { success := false, error := some "Element not found in this frame" }
  | some e =>
    if !isVisibleAndInteractive e then
      { success := false
        error := some "Element found but not visible or interactive in this frame" }
    else if actionType = "type" then
      match text with
      | none => { success := false, error := some "Text is required for type action" }
      | some _ => { success := true }
    else { success := true }

/-- JS truthiness of an optional string: absent and empty strings are
falsy. -/
def optTruthy (o : Option String) : Option String :=
  match o with
  | some s => if s = "" then none else some s
  | none => none

/-- The error-message refinement of `handleType` (planExecutor.ts lines
139-150; `handleClick` lines 190-200 are identical) applied when no frame
reported success: take the first frame result carrying a truthy error;
otherwise fall back to the two `every`-aggregated messages, else the
generic message. -/
def refineErrorMsg (results : List ActionResult) : String :=
  match results.find? (fun r => (optTruthy r.error).isSome) with
  | some r => r.error.getD "Unknown script error or element not found"
  | none =>
    if results.all (fun r => r.error == some "Element not found in this frame") then
      "Element not found in any frame"
    else if results.all
        (fun r => r.error == some "Element found but not visible or interactive in this frame") then
      "Element found but not visible or interactive in any frame"
    else "Unknown script error or element not found"

/-! ## Failure-recovery protocol
(`troubleshootWithLLM` and `checkSelectorExistence`, retryUtils.ts lines
102-220; `getTroubleshootingSuggestion`, `src/utils/llm.ts` /
`src/unnamed/part_002` lines 158-238) -/

/-- `checkSelectorExistence` injected into one frame: `q` abstracts that
frame's `document.querySelectorAll(selector).length` (a selector whose
query throws is modelled by `q selector = 0`, matching the `catch` branch
that returns `{exists: false, count: 0}`). -/
def checkSelectorExistence (q : String → Nat) (selector : String) : Bool × Nat :=
  (q selector > 0, q selector)

/-- The all-frames broadcast of the existence probe
(`results.some(r => r.result?.exists)`, retryUtils.ts line 186): a frame is
its query oracle. -/
def existsInAnyFrame (frames : List (String → Nat)) (selector : String) : Bool :=
  frames.any (fun q => (checkSelectorExistence q selector).1)

/-- The candidate existence filter of `troubleshootWithLLM` (retryUtils.ts
lines 156-203).  Mirrors the `if/else if` chain of the loop body: a truthy
`selector` is probed; otherwise a truthy `target` with a heuristics entry
is probed through the entry's first selector (kept when that first
selector is absent or empty, since `selectorToCheck` is then falsy); a
truthy `target` without heuristics is kept; a candidate with neither is
kept.  A probed candidate is kept iff some frame has a match.  (Script
injection itself is assumed to succeed; the `catch` that discards a
candidate when the probe injection throws is an environment failure
outside this pure model.) -/
def filterViableCandidates (H : String → Option (List String))
    (frames : List (String → Nat)) : List PlanStep → List PlanStep
  | [] => []
  | cand :: rest =>
    let tail := filterViableCandidates H frames rest
    match optTruthy cand.selector with
    | some s => if existsInAnyFrame frames s then cand :: tail else tail
    | none =>
      match optTruthy cand.target with
      | some t =>
        match H t with
        | some sels =>
          match optTruthy sels.head? with
          | some s0 => if existsInAnyFrame frames s0 then cand :: tail else tail
          | none => cand :: tail
        | none => cand :: tail
      | none => cand :: tail

/-- Keep-decision of the existence filter, per candidate (the amended
reading of spec §4.4 step 4): a candidate with a truthy `selector` is
probed on it; otherwise a candidate with a truthy `target` **that has a
heuristics entry with a truthy first selector** is probed on that first
selector; every other candidate (no selector and no target, target without
heuristics, or heuristics entry whose first selector is absent or empty)
is always kept.  A probed candidate is kept iff the probe finds a match in
some frame. -/
def keepCandidate (H : String → Option (List String)) (frames : List (String → Nat))
    (c : PlanStep) : Bool :=
  match optTruthy c.selector with
  | some s => existsInAnyFrame frames s
  | none =>
    match optTruthy c.target with
    | some t =>
      match H t with
      | some sels =>
        match optTruthy sels.head? with
        | some s0 => existsInAnyFrame frames s0
        | none => true
      | none => true
    | none => true

/-- A parsed JSON array element, as far as the candidate filter
`step => typeof step === 'object' && step !== null && step.action` reads
it: an object (with `action = ""` modelling a missing/empty `action`
field) or a non-object value. -/
inductive JsonElem where
  | obj (s : PlanStep)
  | nonObj
deriving DecidableEq, Repr

/-- Outcome of a successful `JSON.parse`: an array or any other JSON
value. -/
inductive ParsedJson where
  | arr (elems : List JsonElem)
  | notArr
deriving DecidableEq, Repr

/-- `parsedSteps.filter(step => typeof step === 'object' && step !== null
&& step.action)`. -/
def filterParsedSteps (elems : List JsonElem) : List PlanStep :=
  elems.filterMap (fun e =>
    match e with
    | JsonElem.obj s => if s.action = "" then none else some s
    | JsonElem.nonObj => none)

/-- `getTroubleshootingSuggestion` (`src/unnamed/part_002` lines 158-238).
`parse` abstracts `JSON.parse` (`none` = it throws); `extractFenced`
abstracts the regex match for a ```json fenced block (`none` = no match).
`response` is the service call: `Except.error` is an API failure (re-thrown
with the `OpenAI API troubleshooting error:` prefix), `Except.ok none` an
empty `content`.  Parsing is defensive: fenced-block array first, then the
raw content as an array, else zero candidates. -/
def getTroubleshootingSuggestion (parse : String → Option ParsedJson)
    (extractFenced : String → Option String) (apiKey : String)
    (response : Except String (Option String)) : Except String (List PlanStep) :=
  if apiKey = "" then Except.error "OpenAI API Key is required."
  else
    match response with
    | Except.error e => Except.error ("OpenAI API troubleshooting error: " ++ e)
    | Except.ok none => Except.ok []
    | Except.ok (some content) =>
      if content = "" then Except.ok []
      else
        let fromFenced :=
          match extractFenced content with
          | some inner =>
            match parse inner with
            | some (ParsedJson.arr elems) => some (filterParsedSteps elems)
            | some ParsedJson.notArr => none
            | none => none
          | none => none
        match fromFenced with
        | some steps => Except.ok steps
        | none =>
          match parse content with
          | some (ParsedJson.arr elems) => Except.ok (filterParsedSteps elems)
          | some ParsedJson.notArr => Except.ok []
          | none => Except.ok []

/-- `troubleshootWithLLM` (retryUtils.ts lines 102-209), as the candidate
producer the engine's recovery callback runs: a missing/empty API key
yields no candidates; the suggestion call's result is parsed and the
candidates are existence-filtered; any error thrown inside (including a
failing service call) is caught by the surrounding `try` and degrades to
zero candidates. -/
def troubleshootWithLLM (parse : String → Option ParsedJson)
    (extractFenced : String → Option String) (H : String → Option (List String))
    (frames : List (String → Nat)) (apiKey : Option String)
    (response : Except String (Option String)) : List PlanStep :=
  match optTruthy apiKey with
  | none => []
  | some key =>
    match getTroubleshootingSuggestion parse extractFenced key response with
    | Except.error _ => []
    | Except.ok cands =>
      if cands.isEmpty then []
      else filterViableCandidates H frames cands

/-! ## Lemmas: the attempt loop and `withRetry` -/

theorem attemptsFrom_allFail (action : Nat → Except String α) (f : Nat → String)
    (d A : Nat) :
    ∀ (n s : Nat) (e0 : String), 0 < n →
      (∀ i, s ≤ i → i < s + n → action i = Except.error (f i)) →
      attemptsFrom action d A (List.range' s n) e0 =
        (n, (List.range' s n).filterMap (fun i => if i < A then some (d * i) else none),
          Except.error (f (s + n - 1))) := by
  intro n
  induction n with
  | zero => intro s e0 h; exact absurd h (lt_irrefl 0)
  | succ m ih =>
    intro s e0 _ hf
    have hs := hf s (le_refl s) (by omega)
    rcases Nat.eq_zero_or_pos m with hm | hm
    · subst hm
      simp [List.range'_succ, attemptsFrom, hs]
      by_cases hsa : s < A <;> simp [hsa]
    · have ih2 := ih (s + 1) (f s) hm (fun i h1 h2 => hf i (by omega) (by omega))
      have e1 : s + 1 + m - 1 = s + (m + 1) - 1 := by omega
      rw [e1] at ih2
      simp [List.range'_succ, attemptsFrom, hs, ih2, List.filterMap_cons]
      by_cases hsa : s < A <;> simp [hsa]

theorem attemptsFrom_firstSuccess (action : Nat → Except String α) (f : Nat → String)
    (d A : Nat) (v : α) :
    ∀ (k n s : Nat) (e0 : String), k < n →
      (∀ i, s ≤ i → i < s + k → action i = Except.error (f i)) →
      action (s + k) = Except.ok v →
      attemptsFrom action d A (List.range' s n) e0 =
        (k + 1, (List.range' s k).filterMap (fun i => if i < A then some (d * i) else none),
          Except.ok v) := by
  intro k
  induction k with
  | zero =>
    intro n s e0 hk _ hok
    obtain ⟨m, rfl⟩ : ∃ m, n = m + 1 := ⟨n - 1, by omega⟩
    simp only [Nat.add_zero] at hok
    simp [List.range'_succ, attemptsFrom, hok]
  | succ j ih =>
    intro n s e0 hk hf hok
    obtain ⟨m, rfl⟩ : ∃ m, n = m + 1 := ⟨n - 1, by omega⟩
    have hs := hf s (le_refl s) (by omega)
    have hok2 : action (s + 1 + j) = Except.ok v := by
      have e1 : s + 1 + j = s + (j + 1) := by omega
      rw [e1]; exact hok
    have ih2 := ih m (s + 1) (f s) (by omega)
      (fun i h1 h2 => hf i (by omega) (by omega)) hok2
    simp [List.range'_succ, attemptsFrom, hs, ih2, List.filterMap_cons]
    by_cases hsa : s < A <;> simp [hsa]

theorem filterMap_backoff_eq_map (d A : Nat) (l : List Nat) (h : ∀ i ∈ l, i < A) :
    l.filterMap (fun i => if i < A then some (d * i) else none) =
      l.map (fun i => d * i) := by
  induction l with
  | nil => rfl
  | cons a t ih =>
    simp [List.filterMap_cons, h a (List.mem_cons_self a t),
      ih (fun i hi => h i (List.mem_cons_of_mem a hi))]

theorem backoff_range' (d A : Nat) (h : 0 < A) :
    (List.range' 1 A).filterMap (fun i => if i < A then some (d * i) else none) =
      (List.range' 1 (A - 1)).map (fun i => d * i) := by
  obtain ⟨B, rfl⟩ : ∃ B, A = B + 1 := ⟨A - 1, by omega⟩
  rw [List.range'_concat]
  rw [List.filterMap_append]
  rw [filterMap_backoff_eq_map d (B + 1) _
    (fun i hi => by have := List.mem_range'_1.mp hi; omega)]
  simp
  omega

theorem withRetry_firstSuccess (action : Nat → Except String α) (attempts d : Nat)
    (opt : Bool) (onFail : String → List PlanStep) (k : Nat) (v : α) (f : Nat → String)
    (hk1 : 1 ≤ k) (hk2 : k ≤ attempts)
    (hfail : ∀ j, 1 ≤ j → j < k → action j = Except.error (f j))
    (hok : action k = Except.ok v) :
    withRetry action attempts d opt onFail =
      ⟨k, (List.range' 1 (k - 1)).map (fun j => d * j), false, RetryResult.ok v⟩ := by
  have hok2 : action (1 + (k - 1)) = Except.ok v := by
    have e1 : 1 + (k - 1) = k := by omega
    rw [e1]; exact hok
  have h := attemptsFrom_firstSuccess action f d attempts v (k - 1) attempts 1 "undefined"
    (by omega) (fun i h1 h2 => hfail i h1 (by omega)) hok2
  rw [filterMap_backoff_eq_map d attempts _
    (fun i hi => by have := List.mem_range'_1.mp hi; omega)] at h
  have e2 : k - 1 + 1 = k := by omega
  rw [e2] at h
  simp [withRetry, h]

theorem withRetry_exhaust_optional (action : Nat → Except String α) (attempts d : Nat)
    (onFail : String → List PlanStep) (f : Nat → String)
    (hA : 0 < attempts)
    (hfail : ∀ j, 1 ≤ j → j ≤ attempts → action j = Except.error (f j)) :
    withRetry action attempts d true onFail =
      ⟨attempts, (List.range' 1 (attempts - 1)).map (fun j => d * j), false,
        RetryResult.err (f attempts)⟩ := by
  have h := attemptsFrom_allFail action f d attempts attempts 1 "undefined" hA
    (fun i h1 h2 => hfail i h1 (by omega))
  rw [backoff_range' d attempts hA] at h
  have e1 : 1 + attempts - 1 = attempts := by omega
  rw [e1] at h
  simp [withRetry, h]

theorem withRetry_exhaust_nonOptional (action : Nat → Except String α) (attempts d : Nat)
    (onFail : String → List PlanStep) (f : Nat → String)
    (hA : 0 < attempts)
    (hfail : ∀ j, 1 ≤ j → j ≤ attempts → action j = Except.error (f j)) :
    withRetry action attempts d false onFail =
      if (onFail (f attempts)).length > 0 then
        ⟨attempts, (List.range' 1 (attempts - 1)).map (fun j => d * j), true,
          RetryResult.fallbackErr (onFail (f attempts)) (f attempts)⟩
      else
        ⟨attempts, (List.range' 1 (attempts - 1)).map (fun j => d * j), true,
          RetryResult.err (f attempts)⟩ := by
  have h := attemptsFrom_allFail action f d attempts attempts 1 "undefined" hA
    (fun i h1 h2 => hfail i h1 (by omega))
  rw [backoff_range' d attempts hA] at h
  have e1 : 1 + attempts - 1 = attempts := by omega
  rw [e1] at h
  simp [withRetry, h]

theorem withRetry_optional_never_invokes_onFail (action : Nat → Except String α)
    (attempts d : Nat) (onFail : String → List PlanStep) :
    (withRetry action attempts d true onFail).onFailInvoked = false := by
  cases h : (attemptsFrom action d attempts (List.range' 1 attempts) "undefined").2.2 <;>
    simp [withRetry, h]

/-! ## Lemmas: one engine step -/

theorem runStep_of_ok (env : Nat → Except String Nat)
    (recover : FormattedStep → String → List PlanStep) (st : EngineState)
    (fs : FormattedStep) (n : Nat) (ws : List Nat) (ofi : Bool) (v : Nat)
    (h : withRetry (fun i => env (st.counter + (i - 1))) (stepAttempts fs) (stepDelayMs fs)
          (fs.s.optional.getD false) (recover fs) = ⟨n, ws, ofi, RetryResult.ok v⟩) :
    runStep env recover st fs =
      ({ st with
          counter := st.counter + n
          activeTabId := v
          msgs := st.msgs ++ [Msg.stepResult false (fs.id : Int) { success := true }]
          execLog := st.execLog ++ List.replicate n fs.s
          recoverLog := st.recoverLog ++ (if ofi then [fs.id] else [])
          finals := st.finals ++ [(fs, { success := true })] },
        { success := true }) := by
  simp [runStep, h]

theorem runStep_of_err (env : Nat → Except String Nat)
    (recover : FormattedStep → String → List PlanStep) (st : EngineState)
    (fs : FormattedStep) (n : Nat) (ws : List Nat) (ofi : Bool) (msg : String)
    (h : withRetry (fun i => env (st.counter + (i - 1))) (stepAttempts fs) (stepDelayMs fs)
          (fs.s.optional.getD false) (recover fs) = ⟨n, ws, ofi, RetryResult.err msg⟩) :
    runStep env recover st fs =
      ({ st with
          counter := st.counter + n
          msgs := st.msgs ++
            [Msg.stepResult false (fs.id : Int) { success := false, error := some msg },
             Msg.stepResult false (fs.id : Int) { success := false, error := some msg }]
          execLog := st.execLog ++ List.replicate n fs.s
          recoverLog := st.recoverLog ++ (if ofi then [fs.id] else [])
          overallSuccess := false
          finalErrorMessage := some msg
          finals := st.finals ++ [(fs, { success := false, error := some msg })] },
        { success := false, error := some msg }) := by
  simp [runStep, h]

theorem runStep_of_fallbackErr (env : Nat → Except String Nat)
    (recover : FormattedStep → String → List PlanStep) (st : EngineState)
    (fs : FormattedStep) (n : Nat) (ws : List Nat) (ofi : Bool)
    (cands : List PlanStep) (lastErr : String)
    (h : withRetry (fun i => env (st.counter + (i - 1))) (stepAttempts fs) (stepDelayMs fs)
          (fs.s.optional.getD false) (recover fs) =
        ⟨n, ws, ofi, RetryResult.fallbackErr cands lastErr⟩) :
    runStep env recover st fs =
      (let fb := tryFallbacks env (st.counter + n) st.activeTabId fs.s cands
       let payload : StepResult :=
         { success := fb.succeeded
           error := if fb.succeeded then none else some lastErr
           fallback := fb.lastResult }
       ({ st with
          counter := fb.counter
          activeTabId := fb.tab
          msgs := st.msgs ++
            [Msg.stepResult false (fs.id : Int) { success := false, error := some lastErr },
             Msg.stepResult false (fs.id : Int) payload]
          execLog := st.execLog ++ List.replicate n fs.s ++ fb.execLog
          recoverLog := st.recoverLog ++ (if ofi then [fs.id] else [])
          overallSuccess := if fb.succeeded then st.overallSuccess else false
          finalErrorMessage := if fb.succeeded then st.finalErrorMessage
            else some (if lastErr = "" then "Step failed after all fallbacks" else lastErr)
          finals := st.finals ++ [(fs, payload)] },
        payload)) := by
  simp [runStep, h]

theorem runStep_finals (env : Nat → Except String Nat)
    (recover : FormattedStep → String → List PlanStep) (st : EngineState)
    (fs : FormattedStep) :
    (runStep env recover st fs).1.finals =
      st.finals ++ [(fs, (runStep env recover st fs).2)] := by
  rcases hW : withRetry (fun i => env (st.counter + (i - 1))) (stepAttempts fs)
      (stepDelayMs fs) (fs.s.optional.getD false) (recover fs) with ⟨n, ws, ofi, res⟩
  cases res with
  | ok v => rw [runStep_of_ok env recover st fs n ws ofi v hW]
  | fallbackErr cands lastErr =>
    rw [runStep_of_fallbackErr env recover st fs n ws ofi cands lastErr hW]
  | err msg => rw [runStep_of_err env recover st fs n ws ofi msg hW]

theorem runStep_recoverLog (env : Nat → Except String Nat)
    (recover : FormattedStep → String → List PlanStep) (st : EngineState)
    (fs : FormattedStep) :
    (runStep env recover st fs).1.recoverLog =
      st.recoverLog ++
        (if (withRetry (fun i => env (st.counter + (i - 1))) (stepAttempts fs)
              (stepDelayMs fs) (fs.s.optional.getD false) (recover fs)).onFailInvoked
         then [fs.id] else []) := by
  rcases hW : withRetry (fun i => env (st.counter + (i - 1))) (stepAttempts fs)
      (stepDelayMs fs) (fs.s.optional.getD false) (recover fs) with ⟨n, ws, ofi, res⟩
  cases res with
  | ok v => rw [runStep_of_ok env recover st fs n ws ofi v hW]
  | fallbackErr cands lastErr =>
    rw [runStep_of_fallbackErr env recover st fs n ws ofi cands lastErr hW]
  | err msg => rw [runStep_of_err env recover st fs n ws ofi msg hW]

theorem runStep_overall (env : Nat → Except String Nat)
    (recover : FormattedStep → String → List PlanStep) (st : EngineState)
    (fs : FormattedStep) :
    (runStep env recover st fs).1.overallSuccess =
      (st.overallSuccess && (runStep env recover st fs).2.success) := by
  rcases hW : withRetry (fun i => env (st.counter + (i - 1))) (stepAttempts fs)
      (stepDelayMs fs) (fs.s.optional.getD false) (recover fs) with ⟨n, ws, ofi, res⟩
  cases res with
  | ok v => rw [runStep_of_ok env recover st fs n ws ofi v hW]; simp
  | fallbackErr cands lastErr =>
    rw [runStep_of_fallbackErr env recover st fs n ws ofi cands lastErr hW]
    by_cases hs : (tryFallbacks env (st.counter + n) st.activeTabId fs.s cands).succeeded <;>
      simp [hs]
  | err msg => rw [runStep_of_err env recover st fs n ws ofi msg hW]; simp

theorem runStep_msgs_shape (env : Nat → Except String Nat)
    (recover : FormattedStep → String → List PlanStep) (st : EngineState)
    (fs : FormattedStep) :
    ∀ m ∈ (runStep env recover st fs).1.msgs,
      m ∈ st.msgs ∨ ∃ r, m = Msg.stepResult false (fs.id : Int) r := by
  rcases hW : withRetry (fun i => env (st.counter + (i - 1))) (stepAttempts fs)
      (stepDelayMs fs) (fs.s.optional.getD false) (recover fs) with ⟨n, ws, ofi, res⟩
  cases res with
  | ok v =>
    rw [runStep_of_ok env recover st fs n ws ofi v hW]
    intro m hm
    simp only [List.mem_append, List.mem_singleton] at hm
    rcases hm with hm | hm
    · exact Or.inl hm
    · exact Or.inr ⟨_, hm⟩
  | fallbackErr cands lastErr =>
    rw [runStep_of_fallbackErr env recover st fs n ws ofi cands lastErr hW]
    intro m hm
    simp only [List.mem_append, List.mem_cons, List.mem_singleton, List.not_mem_nil,
      or_false] at hm
    rcases hm with hm | hm | hm
    · exact Or.inl hm
    · exact Or.inr ⟨_, hm⟩
    · exact Or.inr ⟨_, hm⟩
  | err msg =>
    rw [runStep_of_err env recover st fs n ws ofi msg hW]
    intro m hm
    simp only [List.mem_append, List.mem_cons, List.mem_singleton, List.not_mem_nil,
      or_false] at hm
    rcases hm with hm | hm | hm
    · exact Or.inl hm
    · exact Or.inr ⟨_, hm⟩
    · exact Or.inr ⟨_, hm⟩

theorem runSteps_singleton (env : Nat → Except String Nat)
    (recover : FormattedStep → String → List PlanStep) (st : EngineState)
    (fs : FormattedStep) :
    runSteps env recover [fs] st = (runStep env recover st fs).1 := by
  simp only [runSteps]
  split <;> rfl

/-! ## Claims C5 and C4 -/

/-- C5: the retry coordinator invokes the step's action up to `retryCount`
times (default 3: for a step without `retryCount` the engine passes
`MAX_STEP_RETRIES = 3` attempts), waits `retryDelay * attemptIndex` between
consecutive attempts (linear back-off; no wait after the final attempt),
and returns the action's result immediately on the first success: if
attempts `1..k-1` fail and attempt `k ≤ attempts` succeeds, the action is
invoked exactly `k` times, the recorded waits are `d*1, …, d*(k-1)`, and
the result is the action's value.  If all `attempts` attempts fail, the
action is invoked exactly `attempts` times and the waits are
`d*1, …, d*(attempts-1)` — none after the final attempt. -/
theorem retry_count_and_linear_backoff (action : Nat → Except String α)
    (attempts d : Nat) (opt : Bool) (onFail : String → List PlanStep)
    (k : Nat) (v : α) (f : Nat → String)
    (hk1 : 1 ≤ k) (hk2 : k ≤ attempts)
    (hfail : ∀ j, 1 ≤ j → j < k → action j = Except.error (f j))
    (hok : action k = Except.ok v) :
    withRetry action attempts d opt onFail =
      ⟨k, (List.range' 1 (k - 1)).map (fun j => d * j), false, RetryResult.ok v⟩ ∧
    (∀ fs : FormattedStep, fs.s.retryCount = none → stepAttempts fs = 3) ∧
    (∀ (action2 : Nat → Except String α) (g : Nat → String), 0 < attempts →
      (∀ j, 1 ≤ j → j ≤ attempts → action2 j = Except.error (g j)) →
      (withRetry action2 attempts d opt onFail).invokes = attempts ∧
      (withRetry action2 attempts d opt onFail).waits =
        (List.range' 1 (attempts - 1)).map (fun j => d * j)) := by
  refine ⟨withRetry_firstSuccess action attempts d opt onFail k v f hk1 hk2 hfail hok,
    fun fs h => by simp [stepAttempts, h, MAX_STEP_RETRIES], ?_⟩
  intro action2 g hA hfail2
  cases opt
  · rw [withRetry_exhaust_nonOptional action2 attempts d onFail g hA hfail2]
    split <;> exact ⟨rfl, rfl⟩
  · rw [withRetry_exhaust_optional action2 attempts d onFail g hA hfail2]
    exact ⟨rfl, rfl⟩

/-- Witness for C5: an action that fails exactly twice and then succeeds,
with `retryCount = 3` and `retryDelay = 100`, completes successfully with
exactly 3 invocations and back-off waits of 100 ms and 200 ms. -/
theorem retry_count_and_linear_backoff_witness :
    withRetry (fun i => if i ≤ 2 then Except.error "e" else Except.ok 42) 3 100 false
        (fun _ => ([] : List PlanStep)) =
      ⟨3, (List.range' 1 2).map (fun j => 100 * j), false, RetryResult.ok 42⟩ :=
  (retry_count_and_linear_backoff (fun i => if i ≤ 2 then Except.error "e" else Except.ok 42)
    3 100 false (fun _ => []) 3 42 (fun _ => "e") (by decide) (by decide)
    (fun j h1 h2 => by interval_cases j <;> rfl) rfl).1

/-- C4: an optional step whose retries exhaust propagates the last error
directly and never invokes the failure-recovery callback
(`troubleshootWithLLM` is never called, so its id is never in the recover
log), and the engine then continues to the next step: in a two-step plan
whose optional first step always fails, the first step's final `StepResult`
is the propagated last error, recovery is not triggered for it, and the
second step still executes (a final `StepResult` exists for id 1). -/
theorem optional_step_skips_recovery_and_plan_continues
    (env : Nat → Except String Nat) (recover : FormattedStep → String → List PlanStep)
    (tab : Nat) (goal : String) (s0 s1 : PlanStep) (g : Nat → String)
    (hOpt : s0.optional = some true)
    (hPos : 0 < stepAttempts ⟨s0, 0⟩)
    (hFail : ∀ n, n < stepAttempts ⟨s0, 0⟩ → env n = Except.error (g n)) :
    0 ∉ (executePlanSteps env recover tab ⟨goal, [s0, s1]⟩).recoverLog ∧
    (⟨⟨s0, 0⟩, { success := false, error := some (g (stepAttempts ⟨s0, 0⟩ - 1)) }⟩ :
        FormattedStep × StepResult) ∈
      (executePlanSteps env recover tab ⟨goal, [s0, s1]⟩).finals ∧
    ∃ r, (⟨⟨s1, 1⟩, r⟩ : FormattedStep × StepResult) ∈
      (executePlanSteps env recover tab ⟨goal, [s0, s1]⟩).finals := by
  have hOpt2 : (⟨s0, 0⟩ : FormattedStep).s.optional.getD false = true := by simp [hOpt]
  have hW : withRetry
      (fun i => env ((initialState tab [⟨s0, 0⟩, ⟨s1, 1⟩]).counter + (i - 1)))
      (stepAttempts ⟨s0, 0⟩) (stepDelayMs ⟨s0, 0⟩)
      ((⟨s0, 0⟩ : FormattedStep).s.optional.getD false) (recover ⟨s0, 0⟩) =
      ⟨stepAttempts ⟨s0, 0⟩,
        (List.range' 1 (stepAttempts ⟨s0, 0⟩ - 1)).map (fun j => stepDelayMs ⟨s0, 0⟩ * j),
        false, RetryResult.err ((fun j => g (j - 1)) (stepAttempts ⟨s0, 0⟩))⟩ := by
    rw [hOpt2]
    exact withRetry_exhaust_optional _ _ _ _ (fun j => g (j - 1)) hPos
      (fun j h1 h2 => by
        have h3 := hFail (j - 1) (by omega)
        simpa [initialState] using h3)
  have h0 := runStep_of_err env recover (initialState tab [⟨s0, 0⟩, ⟨s1, 1⟩]) ⟨s0, 0⟩
    (stepAttempts ⟨s0, 0⟩)
    ((List.range' 1 (stepAttempts ⟨s0, 0⟩ - 1)).map (fun j => stepDelayMs ⟨s0, 0⟩ * j))
    false (g (stepAttempts ⟨s0, 0⟩ - 1)) hW
  have hrun : executePlanSteps env recover tab ⟨goal, [s0, s1]⟩ =
      { runSteps env recover [⟨s0, 0⟩, ⟨s1, 1⟩] (initialState tab [⟨s0, 0⟩, ⟨s1, 1⟩]) with
        msgs := (runSteps env recover [⟨s0, 0⟩, ⟨s1, 1⟩]
            (initialState tab [⟨s0, 0⟩, ⟨s1, 1⟩])).msgs ++
          [Msg.stepResult true 1
            { success := (runSteps env recover [⟨s0, 0⟩, ⟨s1, 1⟩]
                (initialState tab [⟨s0, 0⟩, ⟨s1, 1⟩])).overallSuccess
              error := (runSteps env recover [⟨s0, 0⟩, ⟨s1, 1⟩]
                (initialState tab [⟨s0, 0⟩, ⟨s1, 1⟩])).finalErrorMessage }] } := rfl
  set st0 := initialState tab [(⟨s0, 0⟩ : FormattedStep), ⟨s1, 1⟩] with hst0
  set st1 := (runStep env recover st0 ⟨s0, 0⟩).1 with hst1
  have hloop : runSteps env recover [⟨s0, 0⟩, ⟨s1, 1⟩] st0 =
      (runStep env recover st1 ⟨s1, 1⟩).1 := by
    simp only [runSteps]
    rw [← hst1]
    have hcond : (!(runStep env recover st0 ⟨s0, 0⟩).2.success &&
        !(⟨s0, 0⟩ : FormattedStep).s.optional.getD false) = false := by
      rw [hOpt2, h0]
      rfl
    rw [h0] at hcond ⊢
    simp only [hcond]
    exact runSteps_singleton env recover _ _
  have hst1fields : st1.recoverLog = [] ∧
      st1.finals = [(⟨s0, 0⟩,
        { success := false, error := some (g (stepAttempts ⟨s0, 0⟩ - 1)) })] := by
    rw [hst1, h0]
    constructor <;> rfl
  refine ⟨?_, ?_, ?_⟩
  · intro hmem
    rw [hrun] at hmem
    simp only at hmem
    rw [hloop] at hmem
    rw [runStep_recoverLog] at hmem
    rw [hst1fields.1] at hmem
    simp only [List.nil_append] at hmem
    rcases hite : (withRetry (fun i => env (st1.counter + (i - 1))) (stepAttempts ⟨s1, 1⟩)
        (stepDelayMs ⟨s1, 1⟩) ((⟨s1, 1⟩ : FormattedStep).s.optional.getD false)
        (recover ⟨s1, 1⟩)).onFailInvoked with _ | _ <;>
      rw [hite] at hmem <;> simp at hmem
  · rw [hrun]
    simp only
    rw [hloop, runStep_finals, hst1fields.2]
    simp
  · refine ⟨(runStep env recover st1 ⟨s1, 1⟩).2, ?_⟩
    rw [hrun]
    simp only
    rw [hloop, runStep_finals]
    simp

/-- Witness for C4: concrete two-step plan whose optional first step always
fails; recovery is never invoked for it and step 1 still gets a final
result. -/
theorem optional_step_skips_recovery_witness :
    0 ∉ (executePlanSteps (fun _ => Except.error "boom") (fun _ _ => []) 7
        ⟨"g", [{ action := "click", target := some "x", optional := some true },
               { action := "wait", duration := some 5 }]⟩).recoverLog ∧
    (⟨⟨{ action := "click", target := some "x", optional := some true }, 0⟩,
        { success := false, error := some "boom" }⟩ : FormattedStep × StepResult) ∈
      (executePlanSteps (fun _ => Except.error "boom") (fun _ _ => []) 7
        ⟨"g", [{ action := "click", target := some "x", optional := some true },
               { action := "wait", duration := some 5 }]⟩).finals ∧
    ∃ r, (⟨⟨{ action := "wait", duration := some 5 }, 1⟩, r⟩ :
        FormattedStep × StepResult) ∈
      (executePlanSteps (fun _ => Except.error "boom") (fun _ _ => []) 7
        ⟨"g", [{ action := "click", target := some "x", optional := some true },
               { action := "wait", duration := some 5 }]⟩).finals :=
  optional_step_skips_recovery_and_plan_continues (fun _ => Except.error "boom")
    (fun _ _ => []) 7 "g" { action := "click", target := some "x", optional := some true }
    { action := "wait", duration := some 5 } (fun _ => "boom") rfl (by decide)
    (fun n _ => rfl)

/-! ## Lemmas: the fallback-candidate loop, and claim C2 -/

theorem tryFallbacks_firstSuccess (env : Nat → Except String Nat) (orig : PlanStep)
    (t : Nat) :
    ∀ (j : Nat) (cs : List PlanStep) (c0 tab : Nat) (hj : j < cs.length),
      (∀ i, i < j → ∃ e, env (c0 + i) = Except.error e) →
      env (c0 + j) = Except.ok t →
      tryFallbacks env c0 tab orig cs =
        ⟨c0 + j + 1, t, (cs.take (j + 1)).map (mergeStep orig), true,
          some ⟨cs.get ⟨j, hj⟩, true, none⟩⟩ := by
  intro j
  induction j with
  | zero =>
    intro cs c0 tab hj _ hok
    cases cs with
    | nil => simp at hj
    | cons c rest =>
      simp only [Nat.add_zero] at hok
      simp [tryFallbacks, hok]
  | succ m ih =>
    intro cs c0 tab hj hf hok
    cases cs with
    | nil => simp at hj
    | cons c rest =>
      obtain ⟨e, he⟩ := hf 0 (by omega)
      simp only [Nat.add_zero] at he
      have hok2 : env (c0 + 1 + m) = Except.ok t := by
        have e1 : c0 + 1 + m = c0 + (m + 1) := by omega
        rw [e1]; exact hok
      have ih2 := ih rest (c0 + 1) tab (by simpa using hj)
        (fun i hi => by
          obtain ⟨e3, he3⟩ := hf (i + 1) (by omega)
          exact ⟨e3, by rw [show c0 + 1 + i = c0 + (i + 1) by omega]; exact he3⟩)
        hok2
      simp [tryFallbacks, he, ih2]
      omega

theorem tryFallbacks_cons_error (env : Nat → Except String Nat) (c0 tab : Nat)
    (orig cand : PlanStep) (rest : List PlanStep) (e : String)
    (he : env c0 = Except.error e) :
    tryFallbacks env c0 tab orig (cand :: rest) =
      ⟨(tryFallbacks env (c0 + 1) tab orig rest).counter,
       (tryFallbacks env (c0 + 1) tab orig rest).tab,
       mergeStep orig cand :: (tryFallbacks env (c0 + 1) tab orig rest).execLog,
       (tryFallbacks env (c0 + 1) tab orig rest).succeeded,
       some ((tryFallbacks env (c0 + 1) tab orig rest).lastResult.getD
         ⟨cand, false, some e⟩)⟩ := by
  simp [tryFallbacks, he]

theorem tryFallbacks_allFail (env : Nat → Except String Nat) (orig : PlanStep) :
    ∀ (cs : List PlanStep) (c0 tab : Nat) (hne : cs ≠ []),
      (∀ i, i < cs.length → ∃ e, env (c0 + i) = Except.error e) →
      ∃ e2, tryFallbacks env c0 tab orig cs =
        ⟨c0 + cs.length, tab, cs.map (mergeStep orig), false,
          some ⟨cs.getLast hne, false, some e2⟩⟩ := by
  intro cs
  induction cs with
  | nil => intro c0 tab hne; exact absurd rfl hne
  | cons c rest ih =>
    intro c0 tab _ hf
    obtain ⟨e, he⟩ := hf 0 (by simp)
    simp only [Nat.add_zero] at he
    cases rest with
    | nil =>
      refine ⟨e, ?_⟩
      simp [tryFallbacks, he]
    | cons c2 rest2 =>
      obtain ⟨e2, hr⟩ := ih (c0 + 1) tab (by simp)
        (fun i hi => by
          obtain ⟨e3, he3⟩ := hf (i + 1) (by simpa using Nat.succ_lt_succ hi)
          exact ⟨e3, by rw [show c0 + 1 + i = c0 + (i + 1) by omega]; exact he3⟩)
      refine ⟨e2, ?_⟩
      rw [tryFallbacks_cons_error env c0 tab orig c (c2 :: rest2) e he, hr]
      simp [List.getLast_cons]
      omega

/-- C2: for a non-optional step that exhausts its retries with a non-empty
fallback-candidate list, the engine (1) records the initial failure as an
interim `StepResult` message before any fallback attempt and sends the
final `StepResult` after them; (2) tries the candidates in rank order,
each executed as the merged step `{...step, ...candidate}` (the
candidate's present fields taking effect over the original's); the first
candidate that executes successfully stops the loop, and the step's final
`StepResult` has `success := true` and `fallback.success := true` for that
candidate; (3) if all candidates fail, the final outcome is a failure
carrying the original error, annotated with the last fallback attempted,
after executing every merged candidate. -/
theorem fallback_candidates_tried_in_rank_order
    (env : Nat → Except String Nat) (recover : FormattedStep → String → List PlanStep)
    (st : EngineState) (fs : FormattedStep) (cs : List PlanStep) (g : Nat → String)
    (hOpt : fs.s.optional.getD false = false)
    (hA : 0 < stepAttempts fs)
    (hFail : ∀ n, n < stepAttempts fs → env (st.counter + n) = Except.error (g n))
    (hCands : recover fs (g (stepAttempts fs - 1)) = cs)
    (hNe : cs ≠ []) :
    ((runStep env recover st fs).1.msgs = st.msgs ++
      [Msg.stepResult false (fs.id : Int)
        { success := false, error := some (g (stepAttempts fs - 1)) },
       Msg.stepResult false (fs.id : Int) (runStep env recover st fs).2]) ∧
    (∀ (j : Nat) (hj : j < cs.length) (t : Nat),
      (∀ i, i < j → ∃ e, env (st.counter + stepAttempts fs + i) = Except.error e) →
      env (st.counter + stepAttempts fs + j) = Except.ok t →
      (runStep env recover st fs).2 =
        { success := true, fallback := some ⟨cs.get ⟨j, hj⟩, true, none⟩ } ∧
      (runStep env recover st fs).1.execLog =
        st.execLog ++ List.replicate (stepAttempts fs) fs.s ++
          (cs.take (j + 1)).map (mergeStep fs.s) ∧
      (runStep env recover st fs).1.activeTabId = t) ∧
    ((∀ i, i < cs.length → ∃ e, env (st.counter + stepAttempts fs + i) = Except.error e) →
      (runStep env recover st fs).2.success = false ∧
      (runStep env recover st fs).2.error = some (g (stepAttempts fs - 1)) ∧
      (∃ e2, (runStep env recover st fs).2.fallback =
        some ⟨cs.getLast hNe, false, some e2⟩) ∧
      (runStep env recover st fs).1.execLog =
        st.execLog ++ List.replicate (stepAttempts fs) fs.s ++ cs.map (mergeStep fs.s)) := by
  have hW : withRetry (fun i => env (st.counter + (i - 1))) (stepAttempts fs)
      (stepDelayMs fs) (fs.s.optional.getD false) (recover fs) =
      ⟨stepAttempts fs,
        (List.range' 1 (stepAttempts fs - 1)).map (fun j => stepDelayMs fs * j),
        true, RetryResult.fallbackErr cs (g (stepAttempts fs - 1))⟩ := by
    rw [hOpt]
    have h1 := withRetry_exhaust_nonOptional (fun i => env (st.counter + (i - 1)))
      (stepAttempts fs) (stepDelayMs fs) (recover fs) (fun j => g (j - 1)) hA
      (fun j hj1 hj2 => by
        have h3 := hFail (j - 1) (by omega)
        simpa using h3)
    rw [hCands] at h1
    rw [h1]
    simp [List.length_pos.mpr hNe]
  have h0 := runStep_of_fallbackErr env recover st fs (stepAttempts fs)
    ((List.range' 1 (stepAttempts fs - 1)).map (fun j => stepDelayMs fs * j))
    true cs (g (stepAttempts fs - 1)) hW
  refine ⟨?_, ?_, ?_⟩
  · rw [h0]
  · intro j hj t hf hok
    have htf := tryFallbacks_firstSuccess env fs.s t j cs
      (st.counter + stepAttempts fs) st.activeTabId hj hf hok
    rw [h0]
    simp [htf]
  · intro hf
    obtain ⟨e2, htf⟩ := tryFallbacks_allFail env fs.s cs
      (st.counter + stepAttempts fs) st.activeTabId hNe hf
    rw [h0]
    refine ⟨by simp [htf], by simp [htf], ⟨e2, by simp [htf]⟩, by simp [htf]⟩

/-- Witness for C2 (the fallback-adoption scenario): a non-optional step
whose action always fails, one viable candidate whose execution succeeds;
the final `StepResult` has `success := true` and `fallback.success :=
true`, the candidate was executed merged onto the original step, and the
engine's active tab becomes the candidate execution's tab. -/
theorem fallback_adoption_witness :
    (runStep (fun n => if n < 3 then Except.error "boom" else Except.ok 9)
        (fun _ _ => [{ action := "click", selector := some "#b" }])
        (initialState 5 []) ⟨{ action := "click", selector := some "#a" }, 0⟩).2 =
      { success := true,
        fallback := some ⟨{ action := "click", selector := some "#b" }, true, none⟩ } ∧
    (runStep (fun n => if n < 3 then Except.error "boom" else Except.ok 9)
        (fun _ _ => [{ action := "click", selector := some "#b" }])
        (initialState 5 []) ⟨{ action := "click", selector := some "#a" }, 0⟩).1.execLog =
      [] ++ List.replicate 3 { action := "click", selector := some "#a" } ++
        [mergeStep { action := "click", selector := some "#a" }
          { action := "click", selector := some "#b" }] ∧
    (runStep (fun n => if n < 3 then Except.error "boom" else Except.ok 9)
        (fun _ _ => [{ action := "click", selector := some "#b" }])
        (initialState 5 []) ⟨{ action := "click", selector := some "#a" }, 0⟩).1.activeTabId =
      9 :=
  (fallback_candidates_tried_in_rank_order
    (fun n => if n < 3 then Except.error "boom" else Except.ok 9)
    (fun _ _ => [{ action := "click", selector := some "#b" }])
    (initialState 5 []) ⟨{ action := "click", selector := some "#a" }, 0⟩
    [{ action := "click", selector := some "#b" }] (fun _ => "boom")
    rfl (by decide)
    (fun n hn => by
      have h3 : n < 3 := hn
      interval_cases n <;> rfl)
    rfl (by decide)).2.1 0 (by decide) 9 (fun i hi => absurd hi (Nat.not_lt_zero i)) rfl

/-! ## Lemmas: plan-level invariants, and claims C1 and C9 -/

theorem runStep_countP_overall (env : Nat → Except String Nat)
    (recover : FormattedStep → String → List PlanStep) (st : EngineState)
    (fs : FormattedStep) :
    (runStep env recover st fs).1.msgs.countP isOverallMsg =
      st.msgs.countP isOverallMsg := by
  rcases hW : withRetry (fun i => env (st.counter + (i - 1))) (stepAttempts fs)
      (stepDelayMs fs) (fs.s.optional.getD false) (recover fs) with ⟨n, ws, ofi, res⟩
  cases res with
  | ok v =>
    rw [runStep_of_ok env recover st fs n ws ofi v hW]
    simp [List.countP_append, List.countP_cons, isOverallMsg]
  | fallbackErr cands lastErr =>
    rw [runStep_of_fallbackErr env recover st fs n ws ofi cands lastErr hW]
    simp [List.countP_append, List.countP_cons, isOverallMsg]
  | err msg =>
    rw [runStep_of_err env recover st fs n ws ofi msg hW]
    simp [List.countP_append, List.countP_cons, isOverallMsg]

theorem runSteps_countP_overall (env : Nat → Except String Nat)
    (recover : FormattedStep → String → List PlanStep) :
    ∀ (steps : List FormattedStep) (st : EngineState),
      (runSteps env recover steps st).msgs.countP isOverallMsg =
        st.msgs.countP isOverallMsg := by
  intro steps
  induction steps with
  | nil => intro st; rfl
  | cons u rest ih =>
    intro st
    simp only [runSteps]
    split
    · exact runStep_countP_overall env recover st u
    · rw [ih ((runStep env recover st u).1)]
      exact runStep_countP_overall env recover st u

theorem runSteps_overall_inv (env : Nat → Except String Nat)
    (recover : FormattedStep → String → List PlanStep) :
    ∀ (steps : List FormattedStep) (st : EngineState),
      st.overallSuccess = st.finals.all (fun p => p.2.success) →
      (runSteps env recover steps st).overallSuccess =
        (runSteps env recover steps st).finals.all (fun p => p.2.success) := by
  intro steps
  induction steps with
  | nil => intro st h; exact h
  | cons u rest ih =>
    intro st h
    have hstep : (runStep env recover st u).1.overallSuccess =
        (runStep env recover st u).1.finals.all (fun p => p.2.success) := by
      rw [runStep_overall, runStep_finals, List.all_append, h]
      simp
    simp only [runSteps]
    split
    · exact hstep
    · exact ih ((runStep env recover st u).1) hstep

theorem formatPlan_length (steps : List PlanStep) :
    (formatPlan steps).length = steps.length := by
  simp [formatPlan]

theorem le_fst_of_mem_enumFrom :
    ∀ (l : List α) (n : Nat) (p : Nat × α), p ∈ l.enumFrom n → n ≤ p.1 := by
  intro l
  induction l with
  | nil => intro n p h; simp [List.enumFrom] at h
  | cons a t ih =>
    intro n p h
    simp only [List.enumFrom, List.mem_cons] at h
    rcases h with h | h
    · subst h; exact le_refl n
    · exact le_trans (Nat.le_succ n) (ih (n + 1) p h)

theorem pairwise_fst_lt_enumFrom :
    ∀ (l : List α) (n : Nat), (l.enumFrom n).Pairwise (fun p q => p.1 < q.1) := by
  intro l
  induction l with
  | nil => intro n; simp [List.enumFrom]
  | cons a t ih =>
    intro n
    simp only [List.enumFrom]
    exact List.Pairwise.cons
      (fun q hq => lt_of_lt_of_le (Nat.lt_succ_self n) (le_fst_of_mem_enumFrom t (n + 1) q hq))
      (ih (n + 1))

theorem formatPlan_pairwise (steps : List PlanStep) :
    (formatPlan steps).Pairwise (fun a b => a.id < b.id) := by
  unfold formatPlan
  rw [List.pairwise_map]
  exact pairwise_fst_lt_enumFrom steps 0

/-- C1 counterexample: for the concrete plan consisting of one *optional*
step whose action always fails, the final overall outcome message carries
`success = false` although no non-optional step failed terminally, so the
claimed equivalence (success flag ↔ no non-optional terminal step failure)
is false on this input. -/
theorem optional_failure_flags_overall_failure_cex :
    ¬ ((executePlanSteps (fun _ => Except.error "boom") (fun _ _ => []) 7
          ⟨"g", [{ action := "click", target := some "x", optional := some true }]⟩).overallSuccess
            = true ↔
        (executePlanSteps (fun _ => Except.error "boom") (fun _ _ => []) 7
          ⟨"g", [{ action := "click", target := some "x", optional := some true }]⟩).finals.any
            (fun p => !p.2.success && !(p.1.s.optional.getD false)) = false) := by
  decide

/-- C1 (amended): after the step loop the engine emits exactly one final
overall outcome event (`isFinal: true`), as the last message, carrying the
engine's overall flag and final error; and that flag is `true` iff **no
executed step failed terminally — optional or not** (the source sets
`overallSuccess = false` for a terminal failure of an optional step as
well, so the flag equals the conjunction of all final per-step
successes, not merely of the non-optional ones). -/
theorem final_overall_outcome_event (env : Nat → Except String Nat)
    (recover : FormattedStep → String → List PlanStep) (tab : Nat)
    (plan : ExecutionPlan) :
    (executePlanSteps env recover tab plan).msgs.countP isOverallMsg = 1 ∧
    (executePlanSteps env recover tab plan).msgs.getLast? =
      some (Msg.stepResult true ((plan.steps.length : Int) - 1)
        { success := (executePlanSteps env recover tab plan).overallSuccess
          error := (executePlanSteps env recover tab plan).finalErrorMessage }) ∧
    (executePlanSteps env recover tab plan).overallSuccess =
      (executePlanSteps env recover tab plan).finals.all (fun p => p.2.success) := by
  refine ⟨?_, ?_, ?_⟩
  · show ((runSteps env recover (formatPlan plan.steps)
        (initialState tab (formatPlan plan.steps))).msgs ++
          [Msg.stepResult true (((formatPlan plan.steps).length : Int) - 1) _]).countP
        isOverallMsg = 1
    rw [List.countP_append, runSteps_countP_overall]
    simp [initialState, isOverallMsg]
  · show ((runSteps env recover (formatPlan plan.steps)
        (initialState tab (formatPlan plan.steps))).msgs ++
          [Msg.stepResult true (((formatPlan plan.steps).length : Int) - 1) _]).getLast? = _
    rw [List.getLast?_concat, formatPlan_length]
    rfl
  · exact runSteps_overall_inv env recover (formatPlan plan.steps)
      (initialState tab (formatPlan plan.steps)) rfl

theorem runSteps_halt_after_failure (env : Nat → Except String Nat)
    (recover : FormattedStep → String → List PlanStep) :
    ∀ (steps : List FormattedStep) (st : EngineState),
      (∀ q ∈ st.finals, (q : FormattedStep × StepResult).2.success = false →
        q.1.s.optional.getD false = false → False) →
      (∀ q ∈ st.finals, ∀ u ∈ steps,
        (q : FormattedStep × StepResult).1.id < (u : FormattedStep).id) →
      (∀ (b : Bool) (j : Int) (res : StepResult),
        Msg.stepResult b j res ∈ st.msgs → b = false →
        ∀ u ∈ steps, j < ((u : FormattedStep).id : Int)) →
      steps.Pairwise (fun a b => a.id < b.id) →
      ∀ fs r, (fs, r) ∈ (runSteps env recover steps st).finals →
        r.success = false → fs.s.optional.getD false = false →
        (∀ fs2 r2, (fs2, r2) ∈ (runSteps env recover steps st).finals →
          fs2.id ≤ fs.id) ∧
        (∀ (b : Bool) (j : Int) (res : StepResult),
          Msg.stepResult b j res ∈ (runSteps env recover steps st).msgs →
          b = false → j ≤ (fs.id : Int)) := by
  intro steps
  induction steps with
  | nil =>
    intro st h1 _ _ _ fs r hmem hfail hopt
    exact (h1 (fs, r) hmem hfail hopt).elim
  | cons u rest ih =>
    intro st h1 h2 h3 h4 fs r hmem hfail hopt
    have hfin := runStep_finals env recover st u
    have hmsgs := runStep_msgs_shape env recover st u
    rcases List.pairwise_cons.mp h4 with ⟨h4head, h4tail⟩
    by_cases hcond : (!(runStep env recover st u).2.success &&
        !u.s.optional.getD false) = true
    · -- halt: no further step runs
      have hrun : runSteps env recover (u :: rest) st = (runStep env recover st u).1 := by
        simp only [runSteps]
        rw [if_pos hcond]
      rw [hrun] at hmem ⊢
      rw [hfin] at hmem
      rcases List.mem_append.mp hmem with hold | hnew
      · exact (h1 (fs, r) hold hfail hopt).elim
      · have heq1 : fs = u := congrArg Prod.fst (List.mem_singleton.mp hnew)
        constructor
        · intro fs2 r2 hmem2
          rw [hfin] at hmem2
          rcases List.mem_append.mp hmem2 with hold2 | hnew2
          · have hlt : fs2.id < u.id := h2 (fs2, r2) hold2 u (List.mem_cons_self u rest)
            rw [heq1]
            exact le_of_lt hlt
          · have heq2 : fs2 = u := congrArg Prod.fst (List.mem_singleton.mp hnew2)
            rw [heq2, heq1]
        · intro b j res hm hb
          rcases hmsgs _ hm with hold2 | ⟨r2, hnew2⟩
          · have hlt := h3 b j res hold2 hb u (List.mem_cons_self u rest)
            rw [heq1]
            exact le_of_lt hlt
          · injection hnew2 with hb2 hj2 hr2
            rw [heq1, hj2]
    · -- continue with the rest of the plan
      have hrun : runSteps env recover (u :: rest) st =
          runSteps env recover rest (runStep env recover st u).1 := by
        simp only [runSteps]
        rw [if_neg hcond]
      rw [hrun] at hmem ⊢
      refine ih ((runStep env recover st u).1) ?_ ?_ ?_ h4tail fs r hmem hfail hopt
      · intro q hq hqfail hqopt
        rw [hfin] at hq
        rcases List.mem_append.mp hq with hold | hnew
        · exact h1 q hold hqfail hqopt
        · have heqq := List.mem_singleton.mp hnew
          have hqr : q.2 = (runStep env recover st u).2 := congrArg Prod.snd heqq
          have hqf : q.1 = u := congrArg Prod.fst heqq
          rw [hqr] at hqfail
          rw [hqf] at hqopt
          exact hcond (by simp [hqfail, hqopt])
      · intro q hq u2 hu2
        rw [hfin] at hq
        rcases List.mem_append.mp hq with hold | hnew
        · exact h2 q hold u2 (List.mem_cons_of_mem u hu2)
        · have hqf : q.1 = u := congrArg Prod.fst (List.mem_singleton.mp hnew)
          rw [hqf]
          exact h4head u2 hu2
      · intro b j res hm hb u2 hu2
        rcases hmsgs _ hm with hold | ⟨r2, hnew⟩
        · exact h3 b j res hold hb u2 (List.mem_cons_of_mem u hu2)
        · injection hnew with hb2 hj2 hr2
          rw [hj2]
          exact_mod_cast h4head u2 hu2

/-- C9: when a step's final outcome is a terminal failure and the step is
not optional, no later step of the plan ever executes: every final
`StepResult` recorded belongs to a step with id at most the failing one,
and every per-step `planStepResult` message (`isFinal: false`) carries a
step id at most the failing one — `StepResult`s exist only for ids whose
step has begun execution. -/
theorem plan_halts_after_nonoptional_terminal_failure (env : Nat → Except String Nat)
    (recover : FormattedStep → String → List PlanStep) (tab : Nat) (goal : String)
    (steps : List PlanStep) :
    ∀ fs r, (fs, r) ∈ (executePlanSteps env recover tab ⟨goal, steps⟩).finals →
      r.success = false → fs.s.optional.getD false = false →
      (∀ fs2 r2, (fs2, r2) ∈ (executePlanSteps env recover tab ⟨goal, steps⟩).finals →
        fs2.id ≤ fs.id) ∧
      (∀ (b : Bool) (j : Int) (res : StepResult),
        Msg.stepResult b j res ∈ (executePlanSteps env recover tab ⟨goal, steps⟩).msgs →
        b = false → j ≤ (fs.id : Int)) := by
  intro fs r hmem hfail hopt
  have hfe : (executePlanSteps env recover tab ⟨goal, steps⟩).finals =
      (runSteps env recover (formatPlan steps) (initialState tab (formatPlan steps))).finals :=
    rfl
  have h := runSteps_halt_after_failure env recover (formatPlan steps)
    (initialState tab (formatPlan steps))
    (by intro q hq _ _; simp [initialState] at hq)
    (by intro q hq _ _; simp [initialState] at hq)
    (by intro b j res hm _ u _; simp [initialState] at hm)
    (formatPlan_pairwise steps) fs r (hfe ▸ hmem) hfail hopt
  refine ⟨fun fs2 r2 hmem2 => h.1 fs2 r2 (hfe ▸ hmem2), ?_⟩
  intro b j res hm hb
  have hm2 : Msg.stepResult b j res ∈
      (runSteps env recover (formatPlan steps) (initialState tab (formatPlan steps))).msgs ++
        [Msg.stepResult true (((formatPlan steps).length : Int) - 1)
          { success := (runSteps env recover (formatPlan steps)
              (initialState tab (formatPlan steps))).overallSuccess
            error := (runSteps env recover (formatPlan steps)
              (initialState tab (formatPlan steps))).finalErrorMessage }] := hm
  rcases List.mem_append.mp hm2 with hold | hnew
  · exact h.2 b j res hold hb
  · have := List.mem_singleton.mp hnew
    cases this
    cases hb

/-- Witness for C9: a two-step plan whose non-optional first step fails
terminally with zero fallback candidates; every recorded final result and
every per-step message belongs to step 0. -/
theorem plan_halt_witness :
    (∀ fs2 r2, ((fs2 : FormattedStep), (r2 : StepResult)) ∈
        (executePlanSteps (fun _ => Except.error "boom") (fun _ _ => []) 7
          ⟨"g", [{ action := "click", target := some "x" },
                 { action := "wait", duration := some 5 }]⟩).finals →
      fs2.id ≤ (⟨{ action := "click", target := some "x" }, 0⟩ : FormattedStep).id) ∧
    (∀ (b : Bool) (j : Int) (res : StepResult),
      Msg.stepResult b j res ∈
        (executePlanSteps (fun _ => Except.error "boom") (fun _ _ => []) 7
          ⟨"g", [{ action := "click", target := some "x" },
                 { action := "wait", duration := some 5 }]⟩).msgs →
      b = false →
      j ≤ (((⟨{ action := "click", target := some "x" }, 0⟩ : FormattedStep)).id : Int)) :=
  plan_halts_after_nonoptional_terminal_failure (fun _ => Except.error "boom")
    (fun _ _ => []) 7 "g"
    [{ action := "click", target := some "x" }, { action := "wait", duration := some 5 }]
    ⟨{ action := "click", target := some "x" }, 0⟩
    { success := false, error := some "boom" } (by decide) rfl rfl

/-! ## Lemmas: the element resolver, and claims C7 and C8 -/

theorem firstSome_none (x y : Option DomNode) :
    firstSome x y = none ↔ x = none ∧ y = none := by
  cases x <;> simp [firstSome]

theorem trySelector_none_iff (M : String → ElemProps → Bool)
    (PC : String → Option (String × String)) (sel : String) (f : DomForest) :
    trySelector M PC sel f = none ↔
      ∀ n ∈ forestElems f, selYields M PC sel n = false := by
  unfold trySelector
  rw [List.find?_eq_none]
  simp

theorem heurLight_none_iff (M : String → ElemProps → Bool)
    (PC : String → Option (String × String)) (H : String → Option (List String))
    (target : String) (f : DomForest) :
    heurLight M PC H target f = none ↔
      ∀ sel ∈ selectorsOf H target, ∀ n ∈ forestElems f,
        selYields M PC sel n = false := by
  unfold heurLight
  rw [List.findSome?_eq_none_iff]
  simp only [trySelector_none_iff]

mutual
theorem mem_deepSubtree_iff : ∀ (t : DomNode) (m : DomNode),
    m ∈ deepSubtree t ↔
      m ∈ subtreeElems t ∨ ∃ n, n ∈ subtreeElems t ∧ m ∈ deepForest n.shadow
  | .mk p c s, m => by
    simp only [deepSubtree, subtreeElems, List.mem_cons, List.mem_append]
    rw [mem_deepForest_iff c m]
    constructor
    · rintro (rfl | (h | ⟨n, hn, hm⟩) | h)
      · exact Or.inl (Or.inl rfl)
      · exact Or.inl (Or.inr h)
      · exact Or.inr ⟨n, Or.inr hn, hm⟩
      · exact Or.inr ⟨DomNode.mk p c s, Or.inl rfl, h⟩
    · rintro ((h | h) | ⟨n, (rfl | hn), hm⟩)
      · exact Or.inl h
      · exact Or.inr (Or.inl (Or.inl h))
      · exact Or.inr (Or.inr hm)
      · exact Or.inr (Or.inl (Or.inr ⟨n, hn, hm⟩))

theorem mem_deepForest_iff : ∀ (f : DomForest) (m : DomNode),
    m ∈ deepForest f ↔
      m ∈ forestElems f ∨ ∃ n, n ∈ forestElems f ∧ m ∈ deepForest n.shadow
  | .nil, m => by simp [deepForest, forestElems]
  | .cons t ts, m => by
    simp only [deepForest, forestElems, List.mem_append]
    rw [mem_deepSubtree_iff t m, mem_deepForest_iff ts m]
    constructor
    · rintro ((h | ⟨n, hn, hm⟩) | (h | ⟨n, hn, hm⟩))
      · exact Or.inl (Or.inl h)
      · exact Or.inr ⟨n, Or.inl hn, hm⟩
      · exact Or.inl (Or.inr h)
      · exact Or.inr ⟨n, Or.inr hn, hm⟩
    · rintro ((h | h) | ⟨n, (hn | hn), hm⟩)
      · exact Or.inl (Or.inl h)
      · exact Or.inr (Or.inl h)
      · exact Or.inl (Or.inr ⟨n, hn, hm⟩)
      · exact Or.inr (Or.inr ⟨n, hn, hm⟩)
end

theorem heurRoot_none_iff (M : String → ElemProps → Bool)
    (PC : String → Option (String × String)) (H : String → Option (List String))
    (target : String) (f : DomForest)
    (hF : heurShadowScanF M PC H target f = none ↔
      ∀ n ∈ forestElems f, ∀ m ∈ deepForest n.shadow,
        ∀ sel ∈ selectorsOf H target, selYields M PC sel m = false) :
    (if (selectorsOf H target).isEmpty then none
     else firstSome (heurLight M PC H target f) (heurShadowScanF M PC H target f)) =
        none ↔
      ∀ m ∈ deepForest f, ∀ sel ∈ selectorsOf H target,
        selYields M PC sel m = false := by
  by_cases hE : (selectorsOf H target).isEmpty
  · have hS : selectorsOf H target = [] := List.isEmpty_iff.mp hE
    simp [hE, hS]
  · rw [if_neg hE, firstSome_none, heurLight_none_iff, hF]
    constructor
    · rintro ⟨hlight, hshadow⟩ m hm sel hsel
      rcases (mem_deepForest_iff f m).mp hm with hm2 | ⟨n, hn, hm2⟩
      · exact hlight sel hsel m hm2
      · exact hshadow n hn m hm2 sel hsel
    · intro h
      constructor
      · intro sel hsel n hn
        exact h n ((mem_deepForest_iff f n).mpr (Or.inl hn)) sel hsel
      · intro n hn m hm sel hsel
        exact h m ((mem_deepForest_iff f m).mpr (Or.inr ⟨n, hn, hm⟩)) sel hsel

mutual
theorem heurScanT_none_iff (M : String → ElemProps → Bool)
    (PC : String → Option (String × String)) (H : String → Option (List String))
    (target : String) : ∀ (t : DomNode),
    heurShadowScanT M PC H target t = none ↔
      ∀ n ∈ subtreeElems t, ∀ m ∈ deepForest n.shadow,
        ∀ sel ∈ selectorsOf H target, selYields M PC sel m = false
  | .mk p c s => by
    rw [show heurShadowScanT M PC H target (.mk p c s) = firstSome
        (if (selectorsOf H target).isEmpty then none
         else firstSome (heurLight M PC H target s) (heurShadowScanF M PC H target s))
        (heurShadowScanF M PC H target c) from rfl]
    rw [firstSome_none,
      heurRoot_none_iff M PC H target s (heurScanF_none_iff M PC H target s),
      heurScanF_none_iff M PC H target c]
    simp only [subtreeElems, List.mem_cons]
    constructor
    · rintro ⟨hs, hc⟩ n hn m hm sel hsel
      rcases hn with rfl | hn
      · exact hs m hm sel hsel
      · exact hc n hn m hm sel hsel
    · intro h
      constructor
      · intro m hm sel hsel
        exact h (DomNode.mk p c s) (Or.inl rfl) m hm sel hsel
      · intro n hn m hm sel hsel
        exact h n (Or.inr hn) m hm sel hsel

theorem heurScanF_none_iff (M : String → ElemProps → Bool)
    (PC : String → Option (String × String)) (H : String → Option (List String))
    (target : String) : ∀ (f : DomForest),
    heurShadowScanF M PC H target f = none ↔
      ∀ n ∈ forestElems f, ∀ m ∈ deepForest n.shadow,
        ∀ sel ∈ selectorsOf H target, selYields M PC sel m = false
  | .nil => by simp [heurShadowScanF, forestElems]
  | .cons t ts => by
    rw [show heurShadowScanF M PC H target (.cons t ts) = firstSome
        (heurShadowScanT M PC H target t) (heurShadowScanF M PC H target ts) from rfl]
    rw [firstSome_none, heurScanT_none_iff M PC H target t,
      heurScanF_none_iff M PC H target ts]
    simp only [forestElems]
    rw [List.forall_mem_append]
end

/-- C8: the heuristics resolver searches, after the selector phase on the
current root, every shadow root attached to any descendant recursively
(depth-first, in document order), and returns `none` — an expected
`NotFound`, not an error — exactly when **no** element of the
shadow-inclusive closure of the root (elements reachable through shadow
hosts at any depth, so in particular two levels deep) is yielded by any
selector of the table entry.  Contrapositively, an element only reachable
through a shadow host two levels deep that a selector yields makes the
resolver return a hit. -/
theorem shadow_traversal_and_notFound (M : String → ElemProps → Bool)
    (PC : String → Option (String × String)) (H : String → Option (List String))
    (target : String) (root : DomForest) :
    findElementByHeuristicsSrc M PC H target root = none ↔
      ∀ m ∈ deepForest root, ∀ sel ∈ selectorsOf H target,
        selYields M PC sel m = false := by
  rw [show findElementByHeuristicsSrc M PC H target root =
      (if (selectorsOf H target).isEmpty then none
       else firstSome (heurLight M PC H target root)
         (heurShadowScanF M PC H target root)) from rfl]
  exact heurRoot_none_iff M PC H target root (heurScanF_none_iff M PC H target root)

/-- C7: for a semantic identifier the resolver consults the heuristics
table and the selector-list order is authoritative: if the first selector
yields no element anywhere in the root (no match passes the text filter
and the visibility check) and the second selector does, the resolver
returns the second selector's first yielded element in document order
(`forestElems` enumerates the root in preorder = document order, and
`find?` takes the first hit). -/
theorem selector_priority_and_document_order (M : String → ElemProps → Bool)
    (PC : String → Option (String × String)) (H : String → Option (List String))
    (target : String) (root : DomForest) (s1 s2 : String) (e : DomNode)
    (hH : H target = some [s1, s2])
    (h1 : ∀ n ∈ forestElems root, selYields M PC s1 n = false)
    (h2 : (forestElems root).find? (selYields M PC s2) = some e) :
    findElementByHeuristicsSrc M PC H target root = some e := by
  have hsel : selectorsOf H target = [s1, s2] := by simp [selectorsOf, hH]
  have ht1 : trySelector M PC s1 root = none :=
    (trySelector_none_iff M PC s1 root).mpr h1
  have ht2 : trySelector M PC s2 root = some e := h2
  unfold findElementByHeuristicsSrc heurLight
  rw [hsel]
  simp [ht1, ht2, firstSome]

/-- Witness for C7: two selectors, where the first matches only an
invisible element and the second matches a visible one; the resolver
returns the second selector's element. -/
theorem selector_priority_witness :
    findElementByHeuristicsSrc
      (fun sel p => (sel == "s1" && p.textContent == "A") ||
        (sel == "s2" && p.textContent == "B"))
      (fun _ => none)
      (fun t => if t = "tgt" then some ["s1", "s2"] else none)
      "tgt"
      (DomForest.cons (DomNode.mk { width := 0, textContent := "A" } .nil .nil)
        (DomForest.cons (DomNode.mk { textContent := "B" } .nil .nil) .nil)) =
      some (DomNode.mk { textContent := "B" } .nil .nil) :=
  selector_priority_and_document_order
    (fun sel p => (sel == "s1" && p.textContent == "A") ||
      (sel == "s2" && p.textContent == "B"))
    (fun _ => none)
    (fun t => if t = "tgt" then some ["s1", "s2"] else none)
    "tgt"
    (DomForest.cons (DomNode.mk { width := 0, textContent := "A" } .nil .nil)
      (DomForest.cons (DomNode.mk { textContent := "B" } .nil .nil) .nil))
    "s1" "s2" (DomNode.mk { textContent := "B" } .nil .nil)
    rfl (by decide) rfl

/-! ## Lemmas: the resolver only returns visible elements, and claim C10 -/

theorem firstSome_some (x y : Option DomNode) (e : DomNode)
    (h : firstSome x y = some e) : x = some e ∨ y = some e := by
  cases x with
  | none => exact Or.inr h
  | some a => exact Or.inl h

theorem selYields_visible (M : String → ElemProps → Bool)
    (PC : String → Option (String × String)) (sel : String) (n : DomNode)
    (h : selYields M PC sel n = true) : isVisibleAndInteractive n = true := by
  unfold selYields at h
  simp only [Bool.and_eq_true] at h
  exact h.2

theorem trySelector_visible (M : String → ElemProps → Bool)
    (PC : String → Option (String × String)) (sel : String) (f : DomForest)
    (e : DomNode) (h : trySelector M PC sel f = some e) :
    isVisibleAndInteractive e = true :=
  selYields_visible M PC sel e (List.find?_some h)

theorem heurLight_visible (M : String → ElemProps → Bool)
    (PC : String → Option (String × String)) (H : String → Option (List String))
    (target : String) (f : DomForest) (e : DomNode)
    (h : heurLight M PC H target f = some e) : isVisibleAndInteractive e = true := by
  obtain ⟨sel, _, htry⟩ := List.exists_of_findSome?_eq_some h
  exact trySelector_visible M PC sel f e htry

mutual
theorem heurScanT_visible (M : String → ElemProps → Bool)
    (PC : String → Option (String × String)) (H : String → Option (List String))
    (target : String) : ∀ (t : DomNode) (e : DomNode),
    heurShadowScanT M PC H target t = some e → isVisibleAndInteractive e = true
  | .mk p c s, e => fun h => by
    rcases firstSome_some _ _ e h with h1 | h1
    · by_cases hE : (selectorsOf H target).isEmpty
      · rw [if_pos hE] at h1; cases h1
      · rw [if_neg hE] at h1
        rcases firstSome_some _ _ e h1 with h2 | h2
        · exact heurLight_visible M PC H target s e h2
        · exact heurScanF_visible M PC H target s e h2
    · exact heurScanF_visible M PC H target c e h1

theorem heurScanF_visible (M : String → ElemProps → Bool)
    (PC : String → Option (String × String)) (H : String → Option (List String))
    (target : String) : ∀ (f : DomForest) (e : DomNode),
    heurShadowScanF M PC H target f = some e → isVisibleAndInteractive e = true
  | .nil, e => fun h => by cases h
  | .cons t ts, e => fun h => by
    rcases firstSome_some (heurShadowScanT M PC H target t)
        (heurShadowScanF M PC H target ts) e h with h1 | h1
    · exact heurScanT_visible M PC H target t e h1
    · exact heurScanF_visible M PC H target ts e h1
end

theorem findHeur_visible (M : String → ElemProps → Bool)
    (PC : String → Option (String × String)) (H : String → Option (List String))
    (target : String) (root : DomForest) (e : DomNode)
    (h : findElementByHeuristicsSrc M PC H target root = some e) :
    isVisibleAndInteractive e = true := by
  unfold findElementByHeuristicsSrc at h
  by_cases hE : (selectorsOf H target).isEmpty
  · rw [if_pos hE] at h; cases h
  · rw [if_neg hE] at h
    rcases firstSome_some _ _ e h with h1 | h1
    · exact heurLight_visible M PC H target root e h1
    · exact heurScanF_visible M PC H target root e h1

mutual
theorem selScanT_visible (M : String → ElemProps → Bool) (sel : String) :
    ∀ (t : DomNode) (e : DomNode),
    selShadowScanT M sel t = some e → isVisibleAndInteractive e = true
  | .mk p c s, e => fun h => by
    rcases firstSome_some _ _ e h with h1 | h1
    · rcases firstSome_some _ _ e h1 with h2 | h2
      · exact List.find?_some h2
      · exact selScanF_visible M sel s e h2
    · exact selScanF_visible M sel c e h1

theorem selScanF_visible (M : String → ElemProps → Bool) (sel : String) :
    ∀ (f : DomForest) (e : DomNode),
    selShadowScanF M sel f = some e → isVisibleAndInteractive e = true
  | .nil, e => fun h => by cases h
  | .cons t ts, e => fun h => by
    rcases firstSome_some (selShadowScanT M sel t) (selShadowScanF M sel ts) e h with
      h1 | h1
    · exact selScanT_visible M sel t e h1
    · exact selScanF_visible M sel ts e h1
end

theorem findSel_visible (M : String → ElemProps → Bool) (sel : String)
    (root : DomForest) (e : DomNode)
    (h : findElementBySelectorSrc M sel root = some e) :
    isVisibleAndInteractive e = true := by
  rcases firstSome_some (selLight M sel root) (selShadowScanF M sel root) e h with
    h1 | h1
  · exact List.find?_some h1
  · exact selScanF_visible M sel root e h1

theorem actionCore_error_cases (M : String → ElemProps → Bool)
    (PC : String → Option (String × String)) (H : String → Option (List String))
    (actionType identifier : String) (isSemantic : Bool) (text : Option String)
    (root : DomForest) :
    (actionCoreLogic M PC H actionType identifier isSemantic text root).error = none ∨
    (actionCoreLogic M PC H actionType identifier isSemantic text root).error =
      some "Element not found in this frame" ∨
    (actionCoreLogic M PC H actionType identifier isSemantic text root).error =
      some "Text is required for type action" := by
  simp only [actionCoreLogic]
  cases hE : (if isSemantic then findElementByHeuristicsSrc M PC H identifier root
      else findElementBySelectorSrc M identifier root) with
  | none => right; left; rfl
  | some e =>
    have hvis : isVisibleAndInteractive e = true := by
      by_cases hsem : isSemantic
      · rw [if_pos hsem] at hE
        exact findHeur_visible M PC H identifier root e hE
      · rw [if_neg hsem] at hE
        exact findSel_visible M identifier root e hE
    simp only [hvis, Bool.not_true, Bool.false_eq_true, if_false]
    by_cases hat : actionType = "type"
    · rw [if_pos hat]
      cases text with
      | none => right; right; rfl
      | some s => left; rfl
    · rw [if_neg hat]; left; rfl

/-- C10: the `Element found but not visible or interactive in this frame`
branch of `actionCoreLogic` is unreachable — resolution (by heuristics or
by raw selector) only returns elements that already pass the
visible-and-interactive predicate, so a per-frame failure surfaces as
`Element not found in this frame` (or the missing-text error), and the
aggregated `Element found but not visible or interactive in any frame`
message of the `type`/`click` orchestrators can never be produced for any
broadcast result list. -/
theorem notVisible_branch_unreachable (M : String → ElemProps → Bool)
    (PC : String → Option (String × String)) (H : String → Option (List String))
    (actionType identifier : String) (isSemantic : Bool) (text : Option String) :
    (∀ root : DomForest,
      (actionCoreLogic M PC H actionType identifier isSemantic text root).error ≠
        some "Element found but not visible or interactive in this frame") ∧
    (∀ frames : List DomForest,
      refineErrorMsg (frames.map
          (fun f => actionCoreLogic M PC H actionType identifier isSemantic text f)) ≠
        "Element found but not visible or interactive in any frame") := by
  have hcases := actionCore_error_cases M PC H actionType identifier isSemantic text
  constructor
  · intro root h
    rcases hcases root with h1 | h1 | h1 <;> rw [h1] at h
    · cases h
    · exact absurd (Option.some.inj h) (by decide)
    · exact absurd (Option.some.inj h) (by decide)
  · intro frames h
    unfold refineErrorMsg at h
    cases hfind : (frames.map
        (fun f => actionCoreLogic M PC H actionType identifier isSemantic text f)).find?
        (fun r => (optTruthy r.error).isSome) with
    | some r =>
      simp only [hfind] at h
      have hrmem := List.mem_of_find?_eq_some hfind
      obtain ⟨f, hfmem, hrf⟩ := List.mem_map.mp hrmem
      rcases hcases f with h1 | h1 | h1 <;> rw [← hrf, h1] at h <;>
        exact absurd h (by decide)
    | none =>
      simp only [hfind] at h
      by_cases hall1 : (frames.map
          (fun f => actionCoreLogic M PC H actionType identifier isSemantic text f)).all
          (fun r => r.error == some "Element not found in this frame")
      · rw [if_pos hall1] at h
        exact absurd h (by decide)
      · rw [if_neg hall1] at h
        by_cases hall2 : (frames.map
            (fun f => actionCoreLogic M PC H actionType identifier isSemantic text f)).all
            (fun r => r.error ==
              some "Element found but not visible or interactive in this frame")
        · cases hframes : frames with
          | nil =>
            rw [hframes] at hall1
            exact hall1 rfl
          | cons f0 rest =>
            rw [hframes] at hall2
            have h0 : (actionCoreLogic M PC H actionType identifier isSemantic
                text f0).error ==
                some "Element found but not visible or interactive in this frame" := by
              have := List.all_eq_true.mp hall2
              exact this _ (List.mem_map_of_mem _ (List.mem_cons_self f0 rest))
            have h0eq := eq_of_beq h0
            rcases hcases f0 with h1 | h1 | h1 <;> rw [h1] at h0eq
            · cases h0eq
            · exact absurd (Option.some.inj h0eq) (by decide)
            · exact absurd (Option.some.inj h0eq) (by decide)
        · rw [if_neg hall2] at h
          exact absurd h (by decide)

/-! ## Claims C3 and C6: the failure-recovery protocol -/

theorem filterViable_cons (H : String → Option (List String))
    (frames : List (String → Nat)) (cand : PlanStep) (rest : List PlanStep) :
    filterViableCandidates H frames (cand :: rest) =
      if keepCandidate H frames cand then
        cand :: filterViableCandidates H frames rest
      else filterViableCandidates H frames rest := by
  unfold keepCandidate
  simp only [filterViableCandidates]
  rcases Option.eq_none_or_eq_some (optTruthy cand.selector) with h1 | ⟨s, h1⟩
  · simp only [h1]
    rcases Option.eq_none_or_eq_some (optTruthy cand.target) with h2 | ⟨t, h2⟩
    · simp [h2]
    · simp only [h2]
      rcases Option.eq_none_or_eq_some (H t) with h3 | ⟨sels, h3⟩
      · simp [h3]
      · simp only [h3]
        rcases Option.eq_none_or_eq_some (optTruthy sels.head?) with h4 | ⟨s0, h4⟩
        · simp [h4]
        · simp only [h4]
  · simp only [h1]

theorem filterViable_eq_filter (H : String → Option (List String))
    (frames : List (String → Nat)) :
    ∀ cands, filterViableCandidates H frames cands =
      cands.filter (keepCandidate H frames)
  | [] => rfl
  | cand :: rest => by
    simp only [filterViable_cons, List.filter_cons,
      filterViable_eq_filter H frames rest]

/-- C3 counterexample: a candidate carrying a semantic target with **no**
known heuristics is always kept, even when no element exists in any frame
(here: no frames at all, so every probe would report non-existence); the
claim as stated says such a candidate is probed and discarded. -/
theorem unresolvable_target_candidate_kept_cex :
    filterViableCandidates (fun _ => none) []
      [{ action := "click", target := some "mystery" }] =
    [{ action := "click", target := some "mystery" }] := by
  decide

/-- C3 (amended): during failure recovery each candidate with a truthy
concrete selector — or a truthy semantic target **with** a heuristics
entry, probed through the entry's first selector — is subjected to the
existence probe broadcast across all frames and discarded when no frame
has a match; candidates without a resolvable selector/target (including
targets with no known heuristics) are always kept; the returned list is
the rank-preserving filter of the suggestions (a sublist in original
order). -/
theorem existence_filter_probes_and_preserves_order
    (H : String → Option (List String)) (frames : List (String → Nat))
    (cands : List PlanStep) :
    filterViableCandidates H frames cands = cands.filter (keepCandidate H frames) ∧
    List.Sublist (filterViableCandidates H frames cands) cands := by
  refine ⟨filterViable_eq_filter H frames cands, ?_⟩
  rw [filterViable_eq_filter H frames cands]
  exact List.filter_sublist cands

/-- C6: the suggestion-service response is parsed defensively — a JSON
array in a fenced code block first; failing that, the raw response as a
JSON array; failing both, zero candidates are returned instead of a fault
— and an error of the recovery call itself (including a failing service
call) degrades to an empty candidate list. -/
theorem suggestion_parsing_defensive (parse : String → Option ParsedJson)
    (extractFenced : String → Option String) (apiKey content : String)
    (hkey : apiKey = "" → False) (hcontent : content = "" → False) :
    (∀ inner elems, extractFenced content = some inner →
      parse inner = some (ParsedJson.arr elems) →
      getTroubleshootingSuggestion parse extractFenced apiKey
          (Except.ok (some content)) = Except.ok (filterParsedSteps elems)) ∧
    (∀ elems,
      (∀ inner, extractFenced content = some inner →
        parse inner = none ∨ parse inner = some ParsedJson.notArr) →
      parse content = some (ParsedJson.arr elems) →
      getTroubleshootingSuggestion parse extractFenced apiKey
          (Except.ok (some content)) = Except.ok (filterParsedSteps elems)) ∧
    ((∀ inner, extractFenced content = some inner →
        parse inner = none ∨ parse inner = some ParsedJson.notArr) →
      (parse content = none ∨ parse content = some ParsedJson.notArr) →
      getTroubleshootingSuggestion parse extractFenced apiKey
          (Except.ok (some content)) = Except.ok []) ∧
    (∀ (H : String → Option (List String)) (frames : List (String → Nat)) (e : String),
      troubleshootWithLLM parse extractFenced H frames (some apiKey)
        (Except.error e) = []) := by
  refine ⟨?_, ?_, ?_, ?_⟩
  · intro inner elems hi hp
    simp only [getTroubleshootingSuggestion]
    rw [if_neg (fun hc => hkey hc), if_neg (fun hc => hcontent hc)]
    simp only [hi, hp]
  · intro elems hfall hp
    simp only [getTroubleshootingSuggestion]
    rw [if_neg (fun hc => hkey hc), if_neg (fun hc => hcontent hc)]
    rcases Option.eq_none_or_eq_some (extractFenced content) with hi | ⟨inner, hi⟩
    · simp only [hi, hp]
    · rcases hfall inner hi with hpi | hpi <;> simp only [hi, hpi, hp]
  · intro hfall hp
    simp only [getTroubleshootingSuggestion]
    rw [if_neg (fun hc => hkey hc), if_neg (fun hc => hcontent hc)]
    rcases Option.eq_none_or_eq_some (extractFenced content) with hi | ⟨inner, hi⟩
    · rcases hp with hp | hp <;> simp only [hi, hp]
    · rcases hfall inner hi with hpi | hpi <;> rcases hp with hp | hp <;>
        simp only [hi, hpi, hp]
  · intro H frames e
    have hkey2 : optTruthy (some apiKey) = some apiKey := by
      simp only [optTruthy]
      rw [if_neg (fun hc => hkey hc)]
    simp only [troubleshootWithLLM, hkey2, getTroubleshootingSuggestion]
    rw [if_neg (fun hc => hkey hc)]

/-- Witness for C6: with a service response that is neither a fenced JSON
array nor raw JSON, the result is zero candidates; and a failing service
call yields zero candidates from the recovery routine. -/
theorem suggestion_parsing_defensive_witness :
    getTroubleshootingSuggestion (fun _ => none) (fun _ => none) "k"
        (Except.ok (some "x")) = Except.ok [] ∧
    troubleshootWithLLM (fun _ => none) (fun _ => none) (fun _ => none) []
        (some "k") (Except.error "boom") = [] :=
  ⟨(suggestion_parsing_defensive (fun _ => none) (fun _ => none) "k" "x"
      (by decide) (by decide)).2.2.1
    (fun inner h => Option.noConfusion h) (Or.inl rfl),
   (suggestion_parsing_defensive (fun _ => none) (fun _ => none) "k" "x"
      (by decide) (by decide)).2.2.2 (fun _ => none) [] "boom"⟩

end BetterAIAgent
